import Mathlib

/-!
ECDSA signing, verification and provider dispatch (Botan, `src/lib/pubkey/ecdsa/ecdsa.cpp`).

A shallow embedding of `ECDSA_Signature_Operation::raw_sign`,
`ECDSA_Verification_Operation::verify`, `ECDSA_PublicKey::create_verification_op`
and `ECDSA_PrivateKey::create_signature_op`, followed by theorems about them.

Conventions.
* `BigInt` values that the code keeps non-negative are natural numbers.
* A byte is a `Fin 256`; a byte string is a `List Byte`.
* A C++ exception is the `error` side of `Except Error`.
* The curve points (`PointGFp`) are an arbitrary commutative group `P`, written additively;
  the point at infinity is `0` and `k • X` is scalar multiplication.
* Library functions that `ecdsa.cpp` calls but does not define (`BigInt`, `EC_Group`,
  `PointGFp`, `inverse_mod`, the nonce generators, the accelerated backends) are either
  parameters or small models whose doc comment says so.
-/

namespace Botan

/-- One octet of a message or of a signature. -/
abbrev Byte := Fin 256

/-- The exceptions that can leave the functions of `ecdsa.cpp`. -/
inductive Error where
  | Internal_Error (msg : String)
  | Encoding_Error (msg : String)
  | Illegal_Transformation (msg : String)
  | Invalid_Argument (msg : String)
  | DivideByZero
  | Lookup_Error (msg : String)
  | Provider_Not_Found (algo : String) (provider : String)
  | Backend_Error (msg : String)
  deriving DecidableEq, Repr

/- `Backend_Error` stands for an exception of an accelerated backend that is not derived
from `Lookup_Error`, such as `OpenSSL_Error`. -/

/-- Whether `catch(Lookup_Error&)` catches the exception: `Lookup_Error` itself and the
class derived from it, `Provider_Not_Found`. -/
def Error.caught_as_Lookup_Error : Error → Bool
  | .Lookup_Error _ => true
  | .Provider_Not_Found _ _ => true
  | _ => false

deriving instance DecidableEq for Except

/-! ## BigInt -/

/-- The constructor `BigInt(buf, len)`: the big-endian value of a byte string. -/
def BigInt.decode (buf : List Byte) : Nat :=
  buf.foldl (fun acc b => acc * 256 + b.val) 0

/-- Number of significant bytes of `n`, counted with at most `fuel` divisions by 256. -/
def BigInt.bytesAux : Nat → Nat → Nat
  | 0, _ => 0
  | fuel + 1, n => if n = 0 then 0 else BigInt.bytesAux fuel (n / 256) + 1

/-- Modelled from the spec: `BigInt::bytes`, the minimum byte length needed to hold `n`
(`0` for `n = 0`). -/
def BigInt.bytes (n : Nat) : Nat :=
  BigInt.bytesAux n n

/-- The `len` low-order base-256 digits of `n`, most significant first. -/
def BigInt.be_bytes : Nat → Nat → List Byte
  | 0, _ => []
  | len + 1, n => BigInt.be_bytes len (n / 256) ++ [Fin.ofNat (n % 256)]

/-- Modelled from the spec: `BigInt::encode_1363`, the big-endian encoding of `n` in exactly
`bytes` bytes, zero-padded on the left; a value that does not fit is an `Encoding_Error`. -/
def BigInt.encode_1363 (n : Nat) (bytes : Nat) : Except Error (List Byte) :=
  if BigInt.bytes n > bytes then
    .error (.Encoding_Error "encode_1363: n is too large to encode properly")
  else
    .ok (BigInt.be_bytes bytes n)

/-- Modelled from the spec: `BigInt::encode_fixed_length_int_pair`, `n1` then `n2`, each
encoded to exactly `bytes` bytes. -/
def BigInt.encode_fixed_length_int_pair (n1 n2 : Nat) (bytes : Nat) :
    Except Error (List Byte) := do
  let b1 ← BigInt.encode_1363 n1 bytes
  let b2 ← BigInt.encode_1363 n2 bytes
  pure (b1 ++ b2)

/-- Modelled from the spec: `mul_add(a, b, c)`, the integer `a * b + c` (no reduction). -/
def mul_add (a b c : Nat) : Nat :=
  a * b + c

/-- The least `y` below `modulus` with `x * y % modulus = 1`, or `0` when there is none. -/
def inverse_mod_value (x modulus : Nat) : Nat :=
  ((List.range modulus).find? (fun y => x * y % modulus == 1)).getD 0

/-- Modelled from the spec: `inverse_mod(x, modulus)`, the `y` below `modulus` with
`x * y % modulus = 1`, or `0` when `x` has no inverse; a zero modulus is `DivideByZero`. -/
def inverse_mod (x modulus : Nat) : Except Error Nat :=
  if modulus = 0 then .error .DivideByZero
  else .ok (inverse_mod_value x modulus)

/-! ## Randomness source -/

/-- The external randomness source: the sequence of values it will hand out and how many
have been consumed. -/
structure RandomNumberGenerator where
  stream : Nat → Nat
  pos : Nat

/-- Draw the next value of the source. -/
def RandomNumberGenerator.next (rng : RandomNumberGenerator) : Nat × RandomNumberGenerator :=
  (rng.stream rng.pos, { rng with pos := rng.pos + 1 })

/-- The retry loop of `BigInt::random_integer`: draw until the value lies in `[min, max)`;
`none` when `fuel` draws were all rejected. -/
def BigInt.random_integer_loop (min max : Nat) :
    Nat → RandomNumberGenerator → Option (Nat × RandomNumberGenerator)
  | 0, _ => none
  | fuel + 1, rng =>
    let (r, rng1) := rng.next
    if r < min ∨ r ≥ max then BigInt.random_integer_loop min max fuel rng1
    else some (r, rng1)

/-- Modelled from the spec: `BigInt::random_integer(rng, min, max)`, a value of `[min, max)`
drawn from the randomness source with reject-and-retry; an empty range is an
`Invalid_Argument`. The result is `none` when the loop has not ended after `fuel` draws. -/
def BigInt.random_integer (fuel : Nat) (rng : RandomNumberGenerator) (min max : Nat) :
    Option (Except Error (Nat × RandomNumberGenerator)) :=
  if max ≤ min then some (.error (.Invalid_Argument "BigInt::random_integer invalid range"))
  else (BigInt.random_integer_loop min max fuel rng).map .ok

/-! ## EC_Group and PointGFp -/

/-- The domain parameters the code reads from `EC_Group`: the group order, the base point
and the affine x-coordinate of a finite point. -/
structure EC_Group (P : Type) where
  order : Nat
  base_point : P
  affine_x : P → Nat

section Group

variable {P : Type} [AddCommGroup P] [DecidableEq P]

/-- The method `EC_Group::get_order`. -/
def EC_Group.get_order (g : EC_Group P) : Nat := g.order

/-- Modelled from the spec: `EC_Group::get_order_bytes`, the minimum byte length needed to
hold the group order. -/
def EC_Group.get_order_bytes (g : EC_Group P) : Nat := BigInt.bytes g.order

/-- Modelled from the spec: `reduce_mod_order(x)`, the scalar `x mod n`. -/
def EC_Group.mod_order (g : EC_Group P) (x : Nat) : Nat := x % g.order

/-- Modelled from the spec: `mul_mod_order(a, b)`, the scalar `a * b mod n`. -/
def EC_Group.multiply_mod_order (g : EC_Group P) (a b : Nat) : Nat := (a * b) % g.order

/-- Modelled from the spec: `double_scalar_mul(x, G, y, Q)`, the point `x * G + y * Q`. -/
def EC_Group.point_multiply (g : EC_Group P) (x : Nat) (pt : P) (y : Nat) : P :=
  x • g.base_point + y • pt

/-- Modelled from the spec: `blinded_scalar_mul(k, G)`: the scalar is masked by adding a
random multiple of `n` drawn from the randomness source before multiplying. The scratch
workspace `ws` is only written to. -/
def EC_Group.blinded_base_point_multiply (g : EC_Group P) (k : Nat)
    (rng : RandomNumberGenerator) (_ws : List Nat) : P × RandomNumberGenerator :=
  let (mask, rng1) := rng.next
  ((k + g.order * mask) • g.base_point, rng1)

/-- The method `PointGFp::is_zero`: is this the point at infinity. -/
def PointGFp.is_zero (pt : P) : Bool := decide (pt = 0)

/-- The method `PointGFp::get_affine_x`: the point at infinity has no affine coordinates. -/
def PointGFp.get_affine_x (g : EC_Group P) (pt : P) : Except Error Nat :=
  if PointGFp.is_zero pt then
    .error (.Illegal_Transformation "Cannot convert zero point to affine")
  else .ok (g.affine_x pt)

/-! ## Verification (lines 106-153) -/

/-- The state of `ECDSA_Verification_Operation`: the group and the public point. -/
structure ECDSA_Verification_Operation (P : Type) where
  m_group : EC_Group P
  m_public_point : P

/-- The method `ECDSA_Verification_Operation::verify` (lines 128-153). -/
def ECDSA_Verification_Operation.verify (op : ECDSA_Verification_Operation P)
    (msg sig : List Byte) : Except Error Bool := do
  if sig.length ≠ op.m_group.get_order_bytes * 2 then
    return false
  let e := BigInt.decode msg
  let r := BigInt.decode (sig.take (sig.length / 2))
  let s := BigInt.decode ((sig.drop (sig.length / 2)).take (sig.length / 2))
  if r ≤ 0 ∨ r ≥ op.m_group.get_order ∨ s ≤ 0 ∨ s ≥ op.m_group.get_order then
    return false
  let w ← inverse_mod s op.m_group.get_order
  let u1 := op.m_group.multiply_mod_order e w
  let u2 := op.m_group.multiply_mod_order r w
  let R := op.m_group.point_multiply u1 op.m_public_point u2
  if PointGFp.is_zero R then
    return false
  let x ← PointGFp.get_affine_x op.m_group R
  let v := op.m_group.mod_order x
  return decide (v = r)

/-! ## Signing (lines 48-101) -/

/-- The nonce discipline fixed at build time (lines 85-89): with
`BOTAN_HAS_RFC6979_GENERATOR` the nonce is `generate_rfc6979_nonce(x, order, m, hash)`, a
function this file does not define, otherwise it is drawn from the randomness source. -/
inductive NonceSpec where
  | rfc6979 (generate_rfc6979_nonce : Nat → Nat → Nat → String → Nat)
  | random

/-- The state of `ECDSA_Signature_Operation`: the group, the private scalar, the hash name
used by the deterministic nonce generator and the reused scratch workspace. -/
structure ECDSA_Signature_Operation (P : Type) where
  m_group : EC_Group P
  m_x : Nat
  m_rfc6979_hash : String
  m_ws : List Nat

/-- The nonce `k` of lines 85-89 for the digest integer `m`, with the randomness source as
it is left afterwards. -/
def ECDSA_Signature_Operation.nonce (spec : NonceSpec) (op : ECDSA_Signature_Operation P)
    (fuel : Nat) (m : Nat) (rng : RandomNumberGenerator) :
    Option (Except Error (Nat × RandomNumberGenerator)) :=
  match spec with
  | .rfc6979 generate_rfc6979_nonce =>
    some (.ok (generate_rfc6979_nonce op.m_x op.m_group.get_order m op.m_rfc6979_hash, rng))
  | .random => BigInt.random_integer fuel rng 1 op.m_group.get_order

/-- Lines 91-100 of `raw_sign`: the signature for digest integer `m` and nonce `k`. -/
def ECDSA_Signature_Operation.sign_with_nonce (op : ECDSA_Signature_Operation P)
    (m k : Nat) (rng : RandomNumberGenerator) : Except Error (List Byte) := do
  let k_inv ← inverse_mod k op.m_group.get_order
  let (k_times_P, _) := op.m_group.blinded_base_point_multiply k rng op.m_ws
  let x ← PointGFp.get_affine_x op.m_group k_times_P
  let r := op.m_group.mod_order x
  let s := op.m_group.multiply_mod_order k_inv (mul_add op.m_x r m)
  if r = 0 ∨ s = 0 then
    throw (.Internal_Error "During ECDSA signature generated zero r/s")
  BigInt.encode_fixed_length_int_pair r s op.m_group.get_order_bytes

/-- The method `ECDSA_Signature_Operation::raw_sign` (lines 79-101). The result is `none`
when the nonce draw has not ended after `fuel` draws, otherwise the signature bytes or the
exception raised. -/
def ECDSA_Signature_Operation.raw_sign (spec : NonceSpec) (op : ECDSA_Signature_Operation P)
    (fuel : Nat) (msg : List Byte) (rng : RandomNumberGenerator) :
    Option (Except Error (List Byte)) :=
  let m := BigInt.decode msg
  match op.nonce spec fuel m rng with
  | none => none
  | some (.error e) => some (.error e)
  | some (.ok (k, rng1)) => some (op.sign_with_nonce m k rng1)

/-- The value `r` of line 93 when the nonce is `k`. -/
def ECDSA_Signature_Operation.computed_r (op : ECDSA_Signature_Operation P)
    (k : Nat) (rng : RandomNumberGenerator) : Nat :=
  op.m_group.mod_order
    (op.m_group.affine_x (op.m_group.blinded_base_point_multiply k rng op.m_ws).1)

/-- The value `s` of line 94 when the digest integer is `m` and the nonce is `k`. -/
def ECDSA_Signature_Operation.computed_s (op : ECDSA_Signature_Operation P)
    (m k : Nat) (rng : RandomNumberGenerator) : Nat :=
  op.m_group.multiply_mod_order (inverse_mod_value k op.m_group.get_order)
    (mul_add op.m_x (op.computed_r k rng) m)

end Group

/-! ## Provider dispatch (lines 157-236) -/

/-- The fields of `ECDSA_PublicKey` the code reads: `domain()` and `public_point()`. -/
structure ECDSA_PublicKey (P : Type) where
  domain : EC_Group P
  public_point : P

/-- The fields of `ECDSA_PrivateKey` the code reads: `domain()`, `private_value()` and
`public_point()`. -/
structure ECDSA_PrivateKey (P : Type) where
  domain : EC_Group P
  private_value : Nat
  public_point : P

/-- The method `algo_name()` of both key classes. -/
def ECDSA_algo_name : String := "ECDSA"

/-- What `create_verification_op` hands back as a `PK_Ops::Verification`: the operation of
this file or the object `A` of an accelerated backend. -/
inductive PK_Ops.Verification (P : Type) (A : Type) where
  | ecdsa (op : ECDSA_Verification_Operation P)
  | accelerated (op : A)

/-- What `create_signature_op` hands back as a `PK_Ops::Signature`. -/
inductive PK_Ops.Signature (P : Type) (A : Type) where
  | ecdsa (op : ECDSA_Signature_Operation P)
  | accelerated (op : A)

/-- The accelerated backends of a build. A field is `none` when its `BOTAN_HAS_BEARSSL` or
`BOTAN_HAS_OPENSSL` flag is off, otherwise it is the backend's constructor function
(`make_bearssl_ecdsa_ver_op`, `make_openssl_ecdsa_sig_op`, ...), which this file does not
define: it returns the backend's operation object or raises. -/
structure Backends (Key : Type) (A : Type) where
  make_bearssl_op : Option (Key → String → Except Error A)
  make_openssl_op : Option (Key → String → Except Error A)

/-- The outcome of a dispatch: the operation returned or the exception raised, and the names
of the backends whose construction was attempted, in order. -/
structure Dispatch (Op : Type) where
  attempted : List String
  result : Except Error Op

/-- The constructor `ECDSA_Verification_Operation(ecdsa, emsa)` (lines 109-115). -/
def ECDSA_Verification_Operation.new {P : Type} (ecdsa : ECDSA_PublicKey P) (_emsa : String) :
    ECDSA_Verification_Operation P :=
  { m_group := ecdsa.domain, m_public_point := ecdsa.public_point }

/-- The constructor `ECDSA_Signature_Operation(ecdsa, emsa)` (lines 52-61); `hash_for_emsa`
is a function this file does not define. -/
def ECDSA_Signature_Operation.new {P : Type} (hash_for_emsa : String → String)
    (ecdsa : ECDSA_PrivateKey P) (emsa : String) : ECDSA_Signature_Operation P :=
  { m_group := ecdsa.domain, m_x := ecdsa.private_value,
    m_rfc6979_hash := hash_for_emsa emsa, m_ws := [] }

/-- The method `ECDSA_PublicKey::create_verification_op` (lines 157-195). -/
def ECDSA_PublicKey.create_verification_op {P A : Type}
    (backends : Backends (ECDSA_PublicKey P) A) (key : ECDSA_PublicKey P)
    (params provider : String) : Dispatch (PK_Ops.Verification P A) :=
  let base (attempted : List String) : Dispatch (PK_Ops.Verification P A) :=
    if provider = "base" ∨ provider = "" then
      { attempted := attempted ++ ["base"],
        result := .ok (.ecdsa (ECDSA_Verification_Operation.new key params)) }
    else
      { attempted := attempted,
        result := .error (.Provider_Not_Found ECDSA_algo_name provider) }
  let openssl (attempted : List String) : Dispatch (PK_Ops.Verification P A) :=
    match backends.make_openssl_op with
    | none => base attempted
    | some make_openssl_ecdsa_ver_op =>
      if provider = "openssl" ∨ provider = "" then
        match make_openssl_ecdsa_ver_op key params with
        | .ok op => { attempted := attempted ++ ["openssl"], result := .ok (.accelerated op) }
        | .error e =>
          if e.caught_as_Lookup_Error then
            if provider = "openssl" then
              { attempted := attempted ++ ["openssl"], result := .error e }
            else base (attempted ++ ["openssl"])
          else { attempted := attempted ++ ["openssl"], result := .error e }
      else base attempted
  match backends.make_bearssl_op with
  | none => openssl []
  | some make_bearssl_ecdsa_ver_op =>
    if provider = "bearssl" ∨ provider = "" then
      match make_bearssl_ecdsa_ver_op key params with
      | .ok op => { attempted := ["bearssl"], result := .ok (.accelerated op) }
      | .error e =>
        if e.caught_as_Lookup_Error then
          if provider = "bearssl" then { attempted := ["bearssl"], result := .error e }
          else openssl ["bearssl"]
        else { attempted := ["bearssl"], result := .error e }
    else openssl []

/-- The method `ECDSA_PrivateKey::create_signature_op` (lines 197-236); the randomness
source is not used. -/
def ECDSA_PrivateKey.create_signature_op {P A : Type}
    (backends : Backends (ECDSA_PrivateKey P) A) (hash_for_emsa : String → String)
    (key : ECDSA_PrivateKey P) (_rng : RandomNumberGenerator)
    (params provider : String) : Dispatch (PK_Ops.Signature P A) :=
  let base (attempted : List String) : Dispatch (PK_Ops.Signature P A) :=
    if provider = "base" ∨ provider = "" then
      { attempted := attempted ++ ["base"],
        result := .ok (.ecdsa (ECDSA_Signature_Operation.new hash_for_emsa key params)) }
    else
      { attempted := attempted,
        result := .error (.Provider_Not_Found ECDSA_algo_name provider) }
  let openssl (attempted : List String) : Dispatch (PK_Ops.Signature P A) :=
    match backends.make_openssl_op with
    | none => base attempted
    | some make_openssl_ecdsa_sig_op =>
      if provider = "openssl" ∨ provider = "" then
        match make_openssl_ecdsa_sig_op key params with
        | .ok op => { attempted := attempted ++ ["openssl"], result := .ok (.accelerated op) }
        | .error e =>
          if e.caught_as_Lookup_Error then
            if provider = "openssl" then
              { attempted := attempted ++ ["openssl"], result := .error e }
            else base (attempted ++ ["openssl"])
          else { attempted := attempted ++ ["openssl"], result := .error e }
      else base attempted
  match backends.make_bearssl_op with
  | none => openssl []
  | some make_bearssl_ecdsa_sig_op =>
    if provider = "bearssl" ∨ provider = "" then
      match make_bearssl_ecdsa_sig_op key params with
      | .ok op => { attempted := ["bearssl"], result := .ok (.accelerated op) }
      | .error e =>
        if e.caught_as_Lookup_Error then
          if provider = "bearssl" then { attempted := ["bearssl"], result := .error e }
          else openssl ["bearssl"]
        else { attempted := ["bearssl"], result := .error e }
    else openssl []

/-- The fallback policy in the words of the specification (section 4.5), for the case that
no backend is named: go through the candidates in priority order; the first one that
constructs ends the search with its operation; one that cannot service the request
(a `Lookup_Error`) is passed over; any other failure is reported as it is. -/
def first_constructing {Op : Type} (algo provider : String) :
    List (String × Except Error Op) → List String → Dispatch Op
  | [], tried => { attempted := tried, result := .error (.Provider_Not_Found algo provider) }
  | (name, .ok op) :: _, tried => { attempted := tried ++ [name], result := .ok op }
  | (name, .error e) :: rest, tried =>
    if e.caught_as_Lookup_Error then first_constructing algo provider rest (tried ++ [name])
    else { attempted := tried ++ [name], result := .error e }

/-- The built-in accelerated candidates in priority order, `bearssl` before `openssl`, each
with the outcome of its constructor for this key and these parameters. -/
def accelerated_candidates {Key A Op : Type} (backends : Backends Key A) (wrap : A → Op)
    (key : Key) (params : String) : List (String × Except Error Op) :=
  (match backends.make_bearssl_op with
    | none => []
    | some make => [("bearssl", (make key params).map wrap)]) ++
  (match backends.make_openssl_op with
    | none => []
    | some make => [("openssl", (make key params).map wrap)])

/-! ## Key consistency check (lines 31-41) -/

/-- What `check_key` takes from the rest of the library, none of it defined in `ecdsa.cpp`:
the point validation `PointGFp::on_the_curve`, the hash-encoding named by a padding string
(it turns a message into the digest bytes that are signed), `hash_for_emsa`, the nonce
discipline of the build with the bound on its retry loop, and the canonical test message. -/
structure KeyCheckEnv (P : Type) where
  on_the_curve : P → Bool
  emsa_encode : String → List Byte → List Byte
  hash_for_emsa : String → String
  nonce_spec : NonceSpec
  fuel : Nat
  test_message : List Byte

section KeyCheck

variable {P : Type} [AddCommGroup P] [DecidableEq P]

/-- Modelled from the spec: `KeyPair::signature_consistency_check(rng, key, padding)`
(section 4.6): sign a fixed canonical test message using the hash-encoding `padding`, then
verify that signature against the public point of the key. The check passes when signing
returns a signature and verification accepts it, and fails in every other case. -/
def KeyPair.signature_consistency_check (env : KeyCheckEnv P) (rng : RandomNumberGenerator)
    (key : ECDSA_PrivateKey P) (padding : String) : Bool :=
  let digest := env.emsa_encode padding env.test_message
  match (ECDSA_Signature_Operation.new env.hash_for_emsa key padding).raw_sign
      env.nonce_spec env.fuel digest rng with
  | some (.ok sig) =>
    match (ECDSA_Verification_Operation.new
        { domain := key.domain, public_point := key.public_point } padding).verify digest sig with
    | .ok accepted => accepted
    | .error _ => false
  | _ => false

/-- The method `ECDSA_PrivateKey::check_key` (lines 31-41). It is `const`: the key is only
read, the result is the boolean. -/
def ECDSA_PrivateKey.check_key (env : KeyCheckEnv P) (key : ECDSA_PrivateKey P)
    (rng : RandomNumberGenerator) (strong : Bool) : Bool :=
  if !env.on_the_curve key.public_point then
    false
  else if !strong then
    true
  else
    KeyPair.signature_consistency_check env rng key "EMSA1(SHA-256)"

end KeyCheck

/-! ## A concrete group for examples -/

/-- The x-coordinates of `G, 2G, ..., 18G` on the curve `y^2 = x^3 + 2x + 2` over the field
with 17 elements, for `G = (5, 1)`; the group has 19 elements. Entry 0 stands for the point
at infinity, which has no x-coordinate. -/
def toy_x_table : List Nat :=
  [0, 5, 6, 10, 3, 9, 16, 0, 13, 7, 7, 13, 0, 16, 9, 3, 10, 6, 5]

/-- The group of that curve, with the point `k * G` represented by `k` modulo 19. -/
def toy_group : EC_Group (ZMod 19) :=
  { order := 19, base_point := 1, affine_x := fun p => toy_x_table.getD p.val 0 }

/-- A randomness source for examples. -/
def toy_rng : RandomNumberGenerator :=
  { stream := fun i => i + 2, pos := 0 }

/-- A deterministic nonce generator for examples: it always answers `k`. -/
def toy_nonce (k : Nat) : NonceSpec :=
  .rfc6979 (fun _ _ _ _ => k)

/-- A signing operation over the example group with private scalar `d`. -/
def toy_sign_op (d : Nat) : ECDSA_Signature_Operation (ZMod 19) :=
  { m_group := toy_group, m_x := d, m_rfc6979_hash := "SHA-256", m_ws := [] }

/-- The verification operation over the example group for the public point `d * G`. -/
def toy_verify_op (d : Nat) : ECDSA_Verification_Operation (ZMod 19) :=
  { m_group := toy_group, m_public_point := d • toy_group.base_point }

/-- The public key `7 * G` on the example group. -/
def toy_public_key : ECDSA_PublicKey (ZMod 19) :=
  { domain := toy_group, public_point := 7 }

/-- A build with the OpenSSL backend only, whose constructor fails with an exception that
is not a `Lookup_Error` (for instance `OpenSSL_Error` from `EC_KEY_new_by_curve_name`). -/
def toy_failing_backends : Backends (ECDSA_PublicKey (ZMod 19)) Unit :=
  { make_bearssl_op := none,
    make_openssl_op := some (fun _ _ => .error (.Backend_Error "EC_KEY_new_by_curve_name")) }

/-- The private key with scalar 7 on the example group. -/
def toy_private_key : ECDSA_PrivateKey (ZMod 19) :=
  { domain := toy_group, private_value := 7, public_point := 7 }

/-- A build with the OpenSSL backend only, for signing; its constructor succeeds. -/
def toy_sign_backends : Backends (ECDSA_PrivateKey (ZMod 19)) Unit :=
  { make_bearssl_op := none, make_openssl_op := some (fun _ _ => .ok ()) }

/-- The library around `check_key` for examples: every represented point is on the curve,
the hash-encoding hands the message on unchanged, the nonce is always 10. -/
def toy_key_check_env : KeyCheckEnv (ZMod 19) :=
  { on_the_curve := fun _ => true, emsa_encode := fun _ message => message,
    hash_for_emsa := id, nonce_spec := toy_nonce 10, fuel := 0, test_message := [3] }

/-- The same library with a point validation that rejects every point. -/
def toy_key_check_env_off_curve : KeyCheckEnv (ZMod 19) :=
  { toy_key_check_env with on_the_curve := fun _ => false }

/-- The subgroup of order 2 generated by `G = (1, 0)` on the curve `y^2 = x^3 - x` over the
field with 5 elements, with the point `k * G` represented by `k` modulo 2. -/
def tiny_group : EC_Group (ZMod 2) :=
  { order := 2, base_point := 1, affine_x := fun p => p.val }

/-- The verification operation over that group for the public point `G`. -/
def tiny_verify_op : ECDSA_Verification_Operation (ZMod 2) :=
  { m_group := tiny_group, m_public_point := 1 }

/-! ## Lemmas on the byte encoding -/

theorem BigInt.foldl_decode (l : List Byte) (acc : Nat) :
    l.foldl (fun acc b => acc * 256 + b.val) acc = acc * 256 ^ l.length + BigInt.decode l := by
  induction l generalizing acc with
  | nil => simp [BigInt.decode]
  | cons b t ih =>
    simp only [BigInt.decode, List.foldl_cons, List.length_cons] at ih ⊢
    rw [ih (acc * 256 + b.val), ih (0 * 256 + b.val)]
    ring

theorem BigInt.decode_append (a b : List Byte) :
    BigInt.decode (a ++ b) = BigInt.decode a * 256 ^ b.length + BigInt.decode b := by
  unfold BigInt.decode
  rw [List.foldl_append, BigInt.foldl_decode]
  rfl

theorem BigInt.be_bytes_length (len n : Nat) : (BigInt.be_bytes len n).length = len := by
  induction len generalizing n with
  | zero => rfl
  | succ len ih => simp [BigInt.be_bytes, ih]

theorem BigInt.decode_be_bytes (len n : Nat) :
    BigInt.decode (BigInt.be_bytes len n) = n % 256 ^ len := by
  induction len generalizing n with
  | zero => simp [BigInt.be_bytes, BigInt.decode, Nat.mod_one]
  | succ len ih =>
    rw [BigInt.be_bytes, BigInt.decode_append, ih]
    have h : BigInt.decode [(Fin.ofNat (n % 256) : Byte)] = n % 256 := by
      simp [BigInt.decode, Fin.ofNat]
    rw [h, List.length_singleton, pow_one, pow_succ, mul_comm (256 ^ len) 256, Nat.mod_mul]
    ring

theorem BigInt.lt_pow_bytesAux (fuel n : Nat) (h : n ≤ fuel) :
    n < 256 ^ BigInt.bytesAux fuel n := by
  induction fuel generalizing n with
  | zero => simp [BigInt.bytesAux]; omega
  | succ fuel ih =>
    unfold BigInt.bytesAux
    split
    · simp_all
    · have h1 : n / 256 ≤ fuel := by omega
      have h2 := ih (n / 256) h1
      rw [pow_succ]
      exact (Nat.div_lt_iff_lt_mul (by norm_num)).mp h2

theorem BigInt.lt_pow_bytes (n : Nat) : n < 256 ^ BigInt.bytes n :=
  BigInt.lt_pow_bytesAux n n le_rfl

theorem BigInt.bytesAux_le (fuel n len : Nat) (h : n < 256 ^ len) :
    BigInt.bytesAux fuel n ≤ len := by
  induction fuel generalizing n len with
  | zero => simp [BigInt.bytesAux]
  | succ fuel ih =>
    unfold BigInt.bytesAux
    split
    · omega
    · cases len with
      | zero => simp at h; omega
      | succ len =>
        rw [pow_succ] at h
        have h2 := ih (n / 256) len ((Nat.div_lt_iff_lt_mul (by norm_num)).mpr h)
        omega

theorem BigInt.bytes_le (n len : Nat) (h : n < 256 ^ len) : BigInt.bytes n ≤ len :=
  BigInt.bytesAux_le n n len h

/-! ## Verification: shape of the result -/

section VerifyLemmas

variable {P : Type} [AddCommGroup P] [DecidableEq P]

/-- The four outcomes of `verify`, one per `return` of lines 128-153; no path raises. -/
theorem ECDSA_Verification_Operation.verify_eq (op : ECDSA_Verification_Operation P)
    (msg sig : List Byte) :
    op.verify msg sig =
      if sig.length ≠ op.m_group.get_order_bytes * 2 then .ok false
      else
        let r := BigInt.decode (sig.take (sig.length / 2))
        let s := BigInt.decode ((sig.drop (sig.length / 2)).take (sig.length / 2))
        if r ≤ 0 ∨ r ≥ op.m_group.get_order ∨ s ≤ 0 ∨ s ≥ op.m_group.get_order then .ok false
        else
          let w := inverse_mod_value s op.m_group.get_order
          let R := op.m_group.point_multiply
            (op.m_group.multiply_mod_order (BigInt.decode msg) w) op.m_public_point
            (op.m_group.multiply_mod_order r w)
          if R = 0 then .ok false
          else .ok (decide (op.m_group.mod_order (op.m_group.affine_x R) = r)) := by
  unfold ECDSA_Verification_Operation.verify
  by_cases h1 : sig.length ≠ op.m_group.get_order_bytes * 2
  · simp only [if_pos h1]
    rfl
  · simp only [if_neg h1]
    by_cases h2 : BigInt.decode (sig.take (sig.length / 2)) ≤ 0 ∨
        BigInt.decode (sig.take (sig.length / 2)) ≥ op.m_group.get_order ∨
        BigInt.decode ((sig.drop (sig.length / 2)).take (sig.length / 2)) ≤ 0 ∨
        BigInt.decode ((sig.drop (sig.length / 2)).take (sig.length / 2)) ≥ op.m_group.get_order
    · simp only [if_pos h2]
      rfl
    · have hn : op.m_group.get_order ≠ 0 := by omega
      simp only [if_neg h2, inverse_mod, if_neg hn, bind, Except.bind, pure, Except.pure,
        PointGFp.is_zero, PointGFp.get_affine_x, decide_eq_true_eq]
      split <;> simp_all

end VerifyLemmas

/-! ## Arithmetic modulo the group order -/

theorem inverse_mod_value_lt (x n : Nat) (hn : 0 < n) : inverse_mod_value x n < n := by
  unfold inverse_mod_value
  cases h : (List.range n).find? (fun y => x * y % n == 1) with
  | none => simpa using hn
  | some y =>
    have := List.mem_of_find?_eq_some h
    simpa using this

theorem mul_inverse_mod_value (x n : Nat) (hn : 1 < n) (hx : Nat.Coprime x n) :
    x * inverse_mod_value x n % n = 1 := by
  unfold inverse_mod_value
  cases h : (List.range n).find? (fun y => x * y % n == 1) with
  | none =>
    exfalso
    obtain ⟨y, hy⟩ := Nat.exists_mul_emod_eq_one_of_coprime hx hn
    have h1 := List.find?_eq_none.mp h (y % n) (List.mem_range.mpr (Nat.mod_lt _ (by omega)))
    apply h1
    simp only [beq_iff_eq]
    rw [Nat.mul_mod, Nat.mod_mod, ← Nat.mul_mod]
    exact hy
  | some y =>
    have := List.find?_some h
    simpa using this

/-- The core of the round trip, in integers modulo `n`: from `s = k⁻¹ (d r + m)` and
`w = s⁻¹` the verifier's scalar `u1 + u2 d` is the nonce `k` again. -/
theorem verify_scalar_eq_nonce (n k kinv d r m w : Nat)
    (hk : k * kinv % n = 1 % n) (hw : (kinv * (d * r + m)) % n * w % n = 1 % n) :
    ((m * w) % n + (r * w) % n * d) % n = k % n := by
  have hk1 : ((k : ZMod n) * kinv) = 1 := by
    have := (ZMod.natCast_eq_natCast_iff' (k * kinv) 1 n).mpr hk
    simpa using this
  have hw1 : ((kinv : ZMod n) * (d * r + m)) * w = 1 := by
    have := (ZMod.natCast_eq_natCast_iff' ((kinv * (d * r + m)) % n * w) 1 n).mpr hw
    simpa using this
  apply (ZMod.natCast_eq_natCast_iff' _ _ n).mp
  push_cast
  simp only [ZMod.natCast_mod]
  push_cast
  linear_combination (k : ZMod n) * hw1 - ((w : ZMod n) * (d * r + m)) * hk1

section GroupLemmas

variable {P : Type} [AddCommGroup P]

theorem nsmul_mod_order (G : P) (n a : Nat) (hG : n • G = 0) : a • G = (a % n) • G := by
  conv_lhs => rw [← Nat.mod_add_div a n]
  rw [add_nsmul, mul_nsmul, hG, smul_zero, add_zero]

theorem nsmul_congr_mod_order (G : P) (n a b : Nat) (hG : n • G = 0) (h : a % n = b % n) :
    a • G = b • G := by
  rw [nsmul_mod_order G n a hG, nsmul_mod_order G n b hG, h]

theorem nsmul_ne_zero_of_prime_order (G : P) (n k : Nat) (hp : n.Prime) (hG : n • G = 0)
    (hG0 : G ≠ 0) (h0 : 0 < k) (h1 : k < n) : k • G ≠ 0 := by
  intro hk
  have hdvd : addOrderOf G ∣ n := addOrderOf_dvd_of_nsmul_eq_zero hG
  rcases (Nat.dvd_prime hp).mp hdvd with h | h
  · exact hG0 (AddMonoid.addOrderOf_eq_one_iff.mp h)
  · have : n ∣ k := h ▸ addOrderOf_dvd_of_nsmul_eq_zero hk
    exact absurd (Nat.le_of_dvd h0 this) (by omega)

end GroupLemmas

/-! ## Signing: shape of the result -/

theorem BigInt.encode_fixed_length_int_pair_ok (n1 n2 len : Nat)
    (h1 : n1 < 256 ^ len) (h2 : n2 < 256 ^ len) :
    BigInt.encode_fixed_length_int_pair n1 n2 len =
      .ok (BigInt.be_bytes len n1 ++ BigInt.be_bytes len n2) := by
  have b1 : ¬ BigInt.bytes n1 > len := Nat.not_lt.mpr (BigInt.bytes_le n1 len h1)
  have b2 : ¬ BigInt.bytes n2 > len := Nat.not_lt.mpr (BigInt.bytes_le n2 len h2)
  simp only [BigInt.encode_fixed_length_int_pair, BigInt.encode_1363, if_neg b1, if_neg b2]
  rfl

section SignLemmas

variable {P : Type} [AddCommGroup P] [DecidableEq P]

omit [AddCommGroup P] [DecidableEq P] in
theorem EC_Group.lt_pow_order_bytes (g : EC_Group P) (x : Nat) (h : x < g.get_order) :
    x < 256 ^ g.get_order_bytes :=
  lt_trans h (BigInt.lt_pow_bytes g.order)

/-- The outcomes of lines 91-100, one per exit of the code. -/
theorem ECDSA_Signature_Operation.sign_with_nonce_eq (op : ECDSA_Signature_Operation P)
    (m k : Nat) (rng : RandomNumberGenerator) :
    op.sign_with_nonce m k rng =
      if op.m_group.get_order = 0 then .error .DivideByZero
      else if (op.m_group.blinded_base_point_multiply k rng op.m_ws).1 = 0 then
        .error (.Illegal_Transformation "Cannot convert zero point to affine")
      else if op.computed_r k rng = 0 ∨ op.computed_s m k rng = 0 then
        .error (.Internal_Error "During ECDSA signature generated zero r/s")
      else
        .ok (BigInt.be_bytes op.m_group.get_order_bytes (op.computed_r k rng) ++
          BigInt.be_bytes op.m_group.get_order_bytes (op.computed_s m k rng)) := by
  unfold ECDSA_Signature_Operation.sign_with_nonce
  by_cases hn : op.m_group.get_order = 0
  · simp only [inverse_mod, if_pos hn]
    rfl
  · have hpos : 0 < op.m_group.get_order := Nat.pos_of_ne_zero hn
    have hr : op.computed_r k rng < 256 ^ op.m_group.get_order_bytes :=
      op.m_group.lt_pow_order_bytes _ (Nat.mod_lt _ hpos)
    have hs : op.computed_s m k rng < 256 ^ op.m_group.get_order_bytes :=
      op.m_group.lt_pow_order_bytes _ (Nat.mod_lt _ hpos)
    have henc := BigInt.encode_fixed_length_int_pair_ok _ _ _ hr hs
    simp only [ECDSA_Signature_Operation.computed_s, ECDSA_Signature_Operation.computed_r]
      at henc ⊢
    by_cases hR : (op.m_group.blinded_base_point_multiply k rng op.m_ws).1 = 0
    · simp only [inverse_mod, if_neg hn, if_pos hR, bind, Except.bind,
        PointGFp.is_zero, PointGFp.get_affine_x, decide_eq_true_eq]
    · simp only [if_neg hn, if_neg hR]
      split
      · next hz =>
        simp only [inverse_mod, if_neg hn, if_neg hR, bind, Except.bind,
          PointGFp.is_zero, PointGFp.get_affine_x, decide_eq_true_eq, if_pos hz]
      · next hz =>
        simp only [inverse_mod, if_neg hn, if_neg hR, bind, Except.bind,
          PointGFp.is_zero, PointGFp.get_affine_x, decide_eq_true_eq, if_neg hz, henc]
        rfl

end SignLemmas

section SignLemmas2

variable {P : Type} [AddCommGroup P] [DecidableEq P]

omit [DecidableEq P] in
/-- Blinding does not change the point when the base point has order `n`. -/
theorem EC_Group.blinded_base_point_multiply_eq (g : EC_Group P) (k : Nat)
    (rng : RandomNumberGenerator) (ws : List Nat) (hG : g.order • g.base_point = 0) :
    (g.blinded_base_point_multiply k rng ws).1 = k • g.base_point := by
  unfold EC_Group.blinded_base_point_multiply
  exact nsmul_congr_mod_order g.base_point g.order _ _ hG (Nat.add_mul_mod_self_left _ _ _)

/-- Once the nonce is chosen, `raw_sign` is lines 91-100. -/
theorem ECDSA_Signature_Operation.raw_sign_of_nonce (spec : NonceSpec)
    (op : ECDSA_Signature_Operation P) (fuel : Nat) (msg : List Byte)
    (rng rng1 : RandomNumberGenerator) (k : Nat)
    (h : op.nonce spec fuel (BigInt.decode msg) rng = some (.ok (k, rng1))) :
    op.raw_sign spec fuel msg rng = some (op.sign_with_nonce (BigInt.decode msg) k rng1) := by
  unfold ECDSA_Signature_Operation.raw_sign
  simp only [h]

/-- A returned signature comes from a nonce that was produced. -/
theorem ECDSA_Signature_Operation.nonce_of_raw_sign_ok (spec : NonceSpec)
    (op : ECDSA_Signature_Operation P) (fuel : Nat) (msg : List Byte)
    (rng : RandomNumberGenerator) (sig : List Byte)
    (h : op.raw_sign spec fuel msg rng = some (.ok sig)) :
    ∃ k rng1, op.nonce spec fuel (BigInt.decode msg) rng = some (.ok (k, rng1)) ∧
      op.sign_with_nonce (BigInt.decode msg) k rng1 = .ok sig := by
  unfold ECDSA_Signature_Operation.raw_sign at h
  cases hn : op.nonce spec fuel (BigInt.decode msg) rng with
  | none => simp [hn] at h
  | some res =>
    cases res with
    | error e => simp [hn] at h
    | ok kr =>
      obtain ⟨k, rng1⟩ := kr
      simp only [hn, Option.some.injEq] at h
      exact ⟨k, rng1, rfl, h⟩

end SignLemmas2

theorem BigInt.be_bytes_getD (len n i : Nat) (hi : i < len) :
    ((BigInt.be_bytes len n).getD i 0).val = n / 256 ^ (len - 1 - i) % 256 := by
  induction len generalizing n with
  | zero => omega
  | succ len ih =>
    rw [BigInt.be_bytes]
    by_cases h : i < len
    · rw [List.getD_append _ _ _ _ (by rw [BigInt.be_bytes_length]; exact h), ih _ h,
        Nat.div_div_eq_div_mul, ← pow_succ']
      congr 3
      omega
    · have hi2 : i = len := by omega
      subst hi2
      rw [List.getD_append_right _ _ _ _ (by rw [BigInt.be_bytes_length])]
      simp [BigInt.be_bytes_length, Fin.ofNat]

/-! ## Claims about verification -/

section VerifyClaims

variable {P : Type} [AddCommGroup P] [DecidableEq P]

/-- C2: `verify` is a total boolean function. For every group, public point, message and
signature byte string it returns `true` or `false`; no input makes it raise, so in
particular `get_affine_x` is never reached with the point at infinity. -/
theorem verify_never_raises (op : ECDSA_Verification_Operation P) (msg sig : List Byte) :
    op.verify msg sig = .ok true ∨ op.verify msg sig = .ok false := by
  rw [op.verify_eq]
  split
  · exact Or.inr rfl
  · dsimp only
    split
    · exact Or.inr rfl
    · split
      · exact Or.inr rfl
      · have hb : ∀ b : Bool,
            (Except.ok b : Except Error Bool) = .ok true ∨
            (Except.ok b : Except Error Bool) = .ok false := by
          intro b
          cases b
          · exact Or.inr rfl
          · exact Or.inl rfl
        exact hb _

/-- C3: range rejection. A signature of the correct length `2 * order_bytes` whose decoded
`r` or `s` is `0` or at least the group order is answered with `false`. -/
theorem verify_rejects_out_of_range (op : ECDSA_Verification_Operation P)
    (msg sig : List Byte) (hlen : sig.length = 2 * op.m_group.get_order_bytes)
    (hrange : BigInt.decode (sig.take op.m_group.get_order_bytes) = 0 ∨
      BigInt.decode (sig.take op.m_group.get_order_bytes) ≥ op.m_group.get_order ∨
      BigInt.decode (sig.drop op.m_group.get_order_bytes) = 0 ∨
      BigInt.decode (sig.drop op.m_group.get_order_bytes) ≥ op.m_group.get_order) :
    op.verify msg sig = .ok false := by
  have hhalf : sig.length / 2 = op.m_group.get_order_bytes := by omega
  have htake : (sig.drop op.m_group.get_order_bytes).take op.m_group.get_order_bytes =
      sig.drop op.m_group.get_order_bytes :=
    List.take_of_length_le (by rw [List.length_drop]; omega)
  rw [op.verify_eq, if_neg (by omega)]
  dsimp only
  rw [hhalf, htake, if_pos]
  rcases hrange with h | h | h | h
  · exact Or.inl (by omega)
  · exact Or.inr (Or.inl h)
  · exact Or.inr (Or.inr (Or.inl (by omega)))
  · exact Or.inr (Or.inr (Or.inr h))

/-- C4: length rejection. A signature whose length is not `2 * order_bytes` is answered with
`false` whatever its bytes, the message and the public point are. -/
theorem verify_rejects_wrong_length (op : ECDSA_Verification_Operation P)
    (msg sig : List Byte) (hlen : sig.length ≠ 2 * op.m_group.get_order_bytes) :
    op.verify msg sig = .ok false := by
  rw [op.verify_eq, if_pos (by omega)]

end VerifyClaims

/-! ## Claims about signing -/

section SignClaims

variable {P : Type} [AddCommGroup P] [DecidableEq P]

/-- C5: signature wire format. Whenever `raw_sign` returns, the output has exactly `2 * L`
bytes for `L = order_bytes`; byte `i` of the first half is the base-256 digit of weight
`256 ^ (L - 1 - i)` of the computed `r`, byte `i` of the second half that of the computed
`s`; both values are below the group order and below `256 ^ L`, so nothing is truncated and
each half decodes back to its value. -/
theorem raw_sign_wire_format (spec : NonceSpec) (op : ECDSA_Signature_Operation P)
    (fuel : Nat) (msg : List Byte) (rng : RandomNumberGenerator) (sig : List Byte)
    (h : op.raw_sign spec fuel msg rng = some (.ok sig)) :
    ∃ k rng1, op.nonce spec fuel (BigInt.decode msg) rng = some (.ok (k, rng1)) ∧
      sig.length = 2 * op.m_group.get_order_bytes ∧
      op.computed_r k rng1 < op.m_group.get_order ∧
      op.computed_s (BigInt.decode msg) k rng1 < op.m_group.get_order ∧
      op.computed_r k rng1 < 256 ^ op.m_group.get_order_bytes ∧
      op.computed_s (BigInt.decode msg) k rng1 < 256 ^ op.m_group.get_order_bytes ∧
      (∀ i, i < op.m_group.get_order_bytes →
        (sig.getD i 0).val =
          op.computed_r k rng1 / 256 ^ (op.m_group.get_order_bytes - 1 - i) % 256 ∧
        (sig.getD (op.m_group.get_order_bytes + i) 0).val =
          op.computed_s (BigInt.decode msg) k rng1 /
            256 ^ (op.m_group.get_order_bytes - 1 - i) % 256) ∧
      BigInt.decode (sig.take op.m_group.get_order_bytes) = op.computed_r k rng1 ∧
      BigInt.decode (sig.drop op.m_group.get_order_bytes) =
        op.computed_s (BigInt.decode msg) k rng1 := by
  obtain ⟨k, rng1, hnonce, hsign⟩ := op.nonce_of_raw_sign_ok spec fuel msg rng sig h
  refine ⟨k, rng1, hnonce, ?_⟩
  rw [op.sign_with_nonce_eq] at hsign
  split at hsign
  · cases hsign
  · next hn =>
    split at hsign
    · cases hsign
    · split at hsign
      · cases hsign
      · have hpos : 0 < op.m_group.get_order := Nat.pos_of_ne_zero hn
        have hrn : op.computed_r k rng1 < op.m_group.get_order := Nat.mod_lt _ hpos
        have hsn : op.computed_s (BigInt.decode msg) k rng1 < op.m_group.get_order :=
          Nat.mod_lt _ hpos
        have hr := op.m_group.lt_pow_order_bytes _ hrn
        have hs := op.m_group.lt_pow_order_bytes _ hsn
        injection hsign with hsig
        subst hsig
        refine ⟨?_, hrn, hsn, hr, hs, ?_, ?_, ?_⟩
        · rw [List.length_append, BigInt.be_bytes_length, BigInt.be_bytes_length]
          omega
        · intro i hi
          constructor
          · rw [List.getD_append _ _ _ _ (by rw [BigInt.be_bytes_length]; exact hi)]
            exact BigInt.be_bytes_getD _ _ _ hi
          · rw [List.getD_append_right _ _ _ _ (by rw [BigInt.be_bytes_length]; omega),
              BigInt.be_bytes_length, Nat.add_sub_cancel_left]
            exact BigInt.be_bytes_getD _ _ _ hi
        · rw [List.take_left' (BigInt.be_bytes_length _ _), BigInt.decode_be_bytes,
            Nat.mod_eq_of_lt hr]
        · rw [List.drop_left' (BigInt.be_bytes_length _ _), BigInt.decode_be_bytes,
            Nat.mod_eq_of_lt hs]

/-- C7: zero `r` or `s` is fatal. When the computation of `r` and `s` completes (the order is
not zero, a nonce `k` was produced and the point computed from it is not the point at
infinity), `raw_sign` raises the internal error exactly when `r = 0` or `s = 0`, with no
signature and no second nonce, and in every other case it returns the encoded signature. -/
theorem raw_sign_zero_is_fatal (spec : NonceSpec) (op : ECDSA_Signature_Operation P)
    (fuel : Nat) (msg : List Byte) (rng rng1 : RandomNumberGenerator) (k : Nat)
    (hn : op.m_group.get_order ≠ 0)
    (hnonce : op.nonce spec fuel (BigInt.decode msg) rng = some (.ok (k, rng1)))
    (hR : (op.m_group.blinded_base_point_multiply k rng1 op.m_ws).1 ≠ 0) :
    (op.raw_sign spec fuel msg rng =
        some (.error (.Internal_Error "During ECDSA signature generated zero r/s")) ↔
      (op.computed_r k rng1 = 0 ∨ op.computed_s (BigInt.decode msg) k rng1 = 0)) ∧
    ((op.computed_r k rng1 = 0 ∨ op.computed_s (BigInt.decode msg) k rng1 = 0) →
      ∀ sig, op.raw_sign spec fuel msg rng ≠ some (.ok sig)) ∧
    (¬ (op.computed_r k rng1 = 0 ∨ op.computed_s (BigInt.decode msg) k rng1 = 0) →
      op.raw_sign spec fuel msg rng =
        some (.ok (BigInt.be_bytes op.m_group.get_order_bytes (op.computed_r k rng1) ++
          BigInt.be_bytes op.m_group.get_order_bytes
            (op.computed_s (BigInt.decode msg) k rng1)))) := by
  rw [op.raw_sign_of_nonce spec fuel msg rng rng1 k hnonce, op.sign_with_nonce_eq,
    if_neg hn, if_neg hR]
  by_cases hz : op.computed_r k rng1 = 0 ∨ op.computed_s (BigInt.decode msg) k rng1 = 0
  · rw [if_pos hz]
    refine ⟨⟨fun _ => hz, fun _ => rfl⟩, fun _ sig hsig => ?_, fun h => absurd hz h⟩
    cases hsig
  · rw [if_neg hz]
    refine ⟨⟨fun h => ?_, fun h => absurd h hz⟩, fun h => absurd h hz, fun _ => rfl⟩
    cases h

/-- C1: sign/verify round trip. For a group of prime order `n` whose base point `G` has
order `n`, every private scalar `d`, every message and every nonce `k` in `[1, n-1]`: if
`raw_sign` returns signature bytes, `verify` over the same group with the public point
`d * G`, the same message and those bytes returns `true`. -/
theorem sign_verify_round_trip (spec : NonceSpec) (op : ECDSA_Signature_Operation P)
    (fuel : Nat) (msg : List Byte) (rng rng1 : RandomNumberGenerator) (k : Nat)
    (sig : List Byte)
    (hp : op.m_group.order.Prime)
    (hG : op.m_group.order • op.m_group.base_point = 0)
    (hG0 : op.m_group.base_point ≠ 0)
    (hnonce : op.nonce spec fuel (BigInt.decode msg) rng = some (.ok (k, rng1)))
    (hk : 1 ≤ k ∧ k ≤ op.m_group.order - 1)
    (hsig : op.raw_sign spec fuel msg rng = some (.ok sig)) :
    ECDSA_Verification_Operation.verify
      { m_group := op.m_group, m_public_point := op.m_x • op.m_group.base_point }
      msg sig = .ok true := by
  have hn1 : 1 < op.m_group.order := hp.one_lt
  have hn0 : op.m_group.get_order ≠ 0 := by
    show op.m_group.order ≠ 0
    omega
  have hR : (op.m_group.blinded_base_point_multiply k rng1 op.m_ws).1 =
      k • op.m_group.base_point :=
    op.m_group.blinded_base_point_multiply_eq k rng1 op.m_ws hG
  have hkG : k • op.m_group.base_point ≠ 0 :=
    nsmul_ne_zero_of_prime_order _ _ k hp hG hG0 (by omega) (by omega)
  rw [op.raw_sign_of_nonce spec fuel msg rng rng1 k hnonce, op.sign_with_nonce_eq,
    if_neg hn0, if_neg (by rw [hR]; exact hkG)] at hsig
  split at hsig
  · cases hsig
  · next hz =>
    simp only [Option.some.injEq, Except.ok.injEq] at hsig
    -- the two signature components and their ranges
    set r := op.computed_r k rng1 with hr_def
    set s := op.computed_s (BigInt.decode msg) k rng1 with hs_def
    have hrn : r < op.m_group.order := Nat.mod_lt _ (by omega)
    have hsn : s < op.m_group.order := Nat.mod_lt _ (by omega)
    have hr0 : r ≠ 0 := fun h => hz (Or.inl h)
    have hs0 : s ≠ 0 := fun h => hz (Or.inr h)
    have hrL := op.m_group.lt_pow_order_bytes r hrn
    have hsL := op.m_group.lt_pow_order_bytes s hsn
    -- decoding the signature gives back r and s
    have hlen : sig.length = op.m_group.get_order_bytes * 2 := by
      rw [← hsig, List.length_append, BigInt.be_bytes_length, BigInt.be_bytes_length]
      omega
    have hhalf : sig.length / 2 = op.m_group.get_order_bytes := by omega
    have hdr : BigInt.decode (sig.take (sig.length / 2)) = r := by
      rw [hhalf, ← hsig, List.take_left' (BigInt.be_bytes_length _ _), BigInt.decode_be_bytes,
        Nat.mod_eq_of_lt hrL]
    have hds : BigInt.decode ((sig.drop (sig.length / 2)).take (sig.length / 2)) = s := by
      rw [hhalf, ← hsig, List.drop_left' (BigInt.be_bytes_length _ _),
        List.take_of_length_le (by rw [BigInt.be_bytes_length]), BigInt.decode_be_bytes,
        Nat.mod_eq_of_lt hsL]
    -- the inverses exist because the order is prime
    have hkinv : k * inverse_mod_value k op.m_group.order % op.m_group.order =
        1 % op.m_group.order := by
      rw [Nat.mod_eq_of_lt hn1]
      exact mul_inverse_mod_value k _ hn1
        (Nat.coprime_of_lt_prime (by omega) (by omega) hp).symm
    have hw : s * inverse_mod_value s op.m_group.order % op.m_group.order =
        1 % op.m_group.order := by
      rw [Nat.mod_eq_of_lt hn1]
      exact mul_inverse_mod_value s _ hn1
        (Nat.coprime_of_lt_prime (Nat.pos_of_ne_zero hs0) hsn hp).symm
    -- the verifier recomputes the point k * G
    have hscalar := verify_scalar_eq_nonce op.m_group.order k
      (inverse_mod_value k op.m_group.order) op.m_x r (BigInt.decode msg)
      (inverse_mod_value s op.m_group.order) hkinv hw
    have hpoint : op.m_group.point_multiply
        (op.m_group.multiply_mod_order (BigInt.decode msg)
          (inverse_mod_value s op.m_group.get_order))
        (op.m_x • op.m_group.base_point)
        (op.m_group.multiply_mod_order r (inverse_mod_value s op.m_group.get_order)) =
        k • op.m_group.base_point := by
      unfold EC_Group.point_multiply EC_Group.multiply_mod_order EC_Group.get_order
      rw [smul_smul, ← add_nsmul]
      exact nsmul_congr_mod_order _ op.m_group.order _ _ hG hscalar
    have hrange : ¬ (r ≤ 0 ∨ r ≥ op.m_group.get_order ∨ s ≤ 0 ∨ s ≥ op.m_group.get_order) := by
      unfold EC_Group.get_order
      omega
    rw [ECDSA_Verification_Operation.verify_eq, if_neg (not_not.mpr hlen)]
    dsimp only
    rw [hdr, hds, if_neg hrange, hpoint, if_neg hkG]
    have hx : op.m_group.mod_order (op.m_group.affine_x (k • op.m_group.base_point)) = r := by
      rw [hr_def, ECDSA_Signature_Operation.computed_r, hR]
    rw [hx]
    simp

/-- C6: determinism under RFC 6979. In deterministic nonce mode, for a fixed group whose
base point has order `n`, a fixed private scalar, hash name and message, `raw_sign` gives
the same outcome (the same bytes or the same failure) whatever the state of the randomness
source and whatever the scratch workspace holds from earlier calls. -/
theorem raw_sign_deterministic (generate_rfc6979_nonce : Nat → Nat → Nat → String → Nat)
    (op : ECDSA_Signature_Operation P) (msg : List Byte)
    (hG : op.m_group.order • op.m_group.base_point = 0)
    (fuel1 fuel2 : Nat) (rng1 rng2 : RandomNumberGenerator) (ws1 ws2 : List Nat) :
    ECDSA_Signature_Operation.raw_sign (.rfc6979 generate_rfc6979_nonce)
        { op with m_ws := ws1 } fuel1 msg rng1 =
      ECDSA_Signature_Operation.raw_sign (.rfc6979 generate_rfc6979_nonce)
        { op with m_ws := ws2 } fuel2 msg rng2 := by
  unfold ECDSA_Signature_Operation.raw_sign ECDSA_Signature_Operation.nonce
  simp only [ECDSA_Signature_Operation.sign_with_nonce_eq,
    ECDSA_Signature_Operation.computed_s, ECDSA_Signature_Operation.computed_r,
    EC_Group.blinded_base_point_multiply_eq _ _ _ _ hG]

/-- C8 (as amended): `raw_sign` has no length check. A zero-length input is read as the
digest integer `0` and signed like every other input of value `0`: the outcome is the one
for any byte string whose big-endian value is `0`. -/
theorem raw_sign_empty_input_is_zero (spec : NonceSpec) (op : ECDSA_Signature_Operation P)
    (fuel : Nat) (rng : RandomNumberGenerator) (msg : List Byte)
    (hmsg : BigInt.decode msg = 0) :
    op.raw_sign spec fuel [] rng = op.raw_sign spec fuel msg rng := by
  unfold ECDSA_Signature_Operation.raw_sign
  rw [hmsg]
  rfl

end SignClaims

/-! ## Concrete instances -/

/-- C1 at a concrete input: private scalar 7, message `[3]`, nonce 10 on the example group. -/
theorem sign_verify_round_trip_witness :
    (toy_sign_op 7).raw_sign (toy_nonce 10) 0 [3] toy_rng = some (.ok [7, 9]) ∧
    (toy_verify_op 7).verify [3] [7, 9] = .ok true :=
  ⟨by decide,
   sign_verify_round_trip (toy_nonce 10) (toy_sign_op 7) 0 [3] toy_rng toy_rng 10 [7, 9]
    (by norm_num [toy_sign_op, toy_group]) (by decide) (by decide) rfl (by decide)
    (by decide)⟩

/-- C3 at a concrete input: `r = 0` in a signature of the correct length. -/
theorem verify_rejects_out_of_range_witness :
    ([0, 9] : List Byte).length = 2 * toy_group.get_order_bytes ∧
    (toy_verify_op 7).verify [3] [0, 9] = .ok false :=
  ⟨by decide, verify_rejects_out_of_range (toy_verify_op 7) [3] [0, 9] (by decide)
    (by decide)⟩

/-- C4 at a concrete input: a signature of three bytes where two are expected. -/
theorem verify_rejects_wrong_length_witness :
    ([7, 9, 0] : List Byte).length ≠ 2 * toy_group.get_order_bytes ∧
    (toy_verify_op 7).verify [3] [7, 9, 0] = .ok false :=
  ⟨by decide, verify_rejects_wrong_length (toy_verify_op 7) [3] [7, 9, 0] (by decide)⟩

/-- C5 at a concrete input: the signature `[7, 9]` of message `[3]`. -/
theorem raw_sign_wire_format_witness :
    ∃ k rng1, (toy_sign_op 7).nonce (toy_nonce 10) 0 (BigInt.decode [3]) toy_rng =
        some (.ok (k, rng1)) ∧
      ([7, 9] : List Byte).length = 2 * toy_group.get_order_bytes ∧
      (toy_sign_op 7).computed_r k rng1 < toy_group.get_order ∧
      (toy_sign_op 7).computed_s (BigInt.decode [3]) k rng1 < toy_group.get_order ∧
      (toy_sign_op 7).computed_r k rng1 < 256 ^ toy_group.get_order_bytes ∧
      (toy_sign_op 7).computed_s (BigInt.decode [3]) k rng1 < 256 ^ toy_group.get_order_bytes ∧
      (∀ i, i < toy_group.get_order_bytes →
        ((([7, 9] : List Byte).getD i 0).val =
          (toy_sign_op 7).computed_r k rng1 / 256 ^ (toy_group.get_order_bytes - 1 - i) % 256 ∧
        (([7, 9] : List Byte).getD (toy_group.get_order_bytes + i) 0).val =
          (toy_sign_op 7).computed_s (BigInt.decode [3]) k rng1 /
            256 ^ (toy_group.get_order_bytes - 1 - i) % 256)) ∧
      BigInt.decode (([7, 9] : List Byte).take toy_group.get_order_bytes) =
        (toy_sign_op 7).computed_r k rng1 ∧
      BigInt.decode (([7, 9] : List Byte).drop toy_group.get_order_bytes) =
        (toy_sign_op 7).computed_s (BigInt.decode [3]) k rng1 :=
  raw_sign_wire_format (toy_nonce 10) (toy_sign_op 7) 0 [3] toy_rng [7, 9] (by decide)

/-- C6 at a concrete input: two randomness sources and two workspaces, same signature. -/
theorem raw_sign_deterministic_witness :
    ECDSA_Signature_Operation.raw_sign (toy_nonce 10) { toy_sign_op 7 with m_ws := [] } 0 [3]
        toy_rng =
      ECDSA_Signature_Operation.raw_sign (toy_nonce 10) { toy_sign_op 7 with m_ws := [1, 2] } 4
        [3] { stream := fun i => 2 * i + 1, pos := 1 } :=
  raw_sign_deterministic (fun _ _ _ _ => 10) (toy_sign_op 7) [3] (by decide) 0 4 toy_rng
    { stream := fun i => 2 * i + 1, pos := 1 } [] [1, 2]

/-- C7 at a concrete input: nonce 7 gives `x(7 G) = 0`, hence `r = 0` and the error. -/
theorem raw_sign_zero_is_fatal_witness :
    (toy_sign_op 7).computed_r 7 toy_rng = 0 ∧
    (toy_sign_op 7).raw_sign (toy_nonce 7) 0 [3] toy_rng =
      some (.error (.Internal_Error "During ECDSA signature generated zero r/s")) :=
  ⟨by decide,
   (raw_sign_zero_is_fatal (toy_nonce 7) (toy_sign_op 7) 0 [3] toy_rng toy_rng 7 (by decide)
    rfl (by decide)).1.mpr (Or.inl (by decide))⟩

/-- C8 refuted at a concrete input: the empty input is signed, the call does not fail. -/
theorem raw_sign_accepts_empty_input :
    (toy_sign_op 7).raw_sign (toy_nonce 10) 0 [] toy_rng = some (.ok [7, 3]) := by
  decide

/-- C8 (as amended) at a concrete input: the empty input and a two-byte zero input. -/
theorem raw_sign_empty_input_is_zero_witness :
    BigInt.decode [0, 0] = 0 ∧
    (toy_sign_op 7).raw_sign (toy_nonce 10) 0 [] toy_rng =
      (toy_sign_op 7).raw_sign (toy_nonce 10) 0 [0, 0] toy_rng :=
  ⟨by decide, raw_sign_empty_input_is_zero (toy_nonce 10) (toy_sign_op 7) 0 toy_rng [0, 0]
    (by decide)⟩

/-! ## Claims about provider dispatch -/

section DispatchClaims

variable {P A : Type}

/-- With no backend named, `create_verification_op` is the ordered search of the
specification over the built-in accelerated backends followed by the software baseline. -/
theorem ECDSA_PublicKey.create_verification_op_empty
    (backends : Backends (ECDSA_PublicKey P) A) (key : ECDSA_PublicKey P) (params : String) :
    key.create_verification_op backends params "" =
      first_constructing ECDSA_algo_name ""
        (accelerated_candidates backends PK_Ops.Verification.accelerated key params ++
          [("base", .ok (.ecdsa (ECDSA_Verification_Operation.new key params)))]) [] := by
  unfold ECDSA_PublicKey.create_verification_op accelerated_candidates
  cases h1 : backends.make_bearssl_op with
  | none =>
    cases h2 : backends.make_openssl_op with
    | none => simp [first_constructing]
    | some f2 =>
      cases h4 : f2 key params with
      | ok op => simp [first_constructing, h4, Except.map]
      | error e => cases h5 : e.caught_as_Lookup_Error <;>
          simp [first_constructing, h4, h5, Except.map]
  | some f1 =>
    cases h3 : f1 key params with
    | ok op => simp [first_constructing, h3, Except.map]
    | error e =>
      cases h6 : e.caught_as_Lookup_Error
      · simp [first_constructing, h3, h6, Except.map]
      · cases h2 : backends.make_openssl_op with
        | none => simp [first_constructing, h3, h6, Except.map]
        | some f2 =>
          cases h4 : f2 key params with
          | ok op => simp [first_constructing, h3, h4, h6, Except.map]
          | error e2 => cases h5 : e2.caught_as_Lookup_Error <;>
              simp [first_constructing, h3, h4, h5, h6, Except.map]

/-- With no backend named, `create_signature_op` is the ordered search of the specification
over the built-in accelerated backends followed by the software baseline. -/
theorem ECDSA_PrivateKey.create_signature_op_empty
    (backends : Backends (ECDSA_PrivateKey P) A) (hash_for_emsa : String → String)
    (key : ECDSA_PrivateKey P) (rng : RandomNumberGenerator) (params : String) :
    key.create_signature_op backends hash_for_emsa rng params "" =
      first_constructing ECDSA_algo_name ""
        (accelerated_candidates backends PK_Ops.Signature.accelerated key params ++
          [("base", .ok (.ecdsa (ECDSA_Signature_Operation.new hash_for_emsa key params)))])
        [] := by
  unfold ECDSA_PrivateKey.create_signature_op accelerated_candidates
  cases h1 : backends.make_bearssl_op with
  | none =>
    cases h2 : backends.make_openssl_op with
    | none => simp [first_constructing]
    | some f2 =>
      cases h4 : f2 key params with
      | ok op => simp [first_constructing, h4, Except.map]
      | error e => cases h5 : e.caught_as_Lookup_Error <;>
          simp [first_constructing, h4, h5, Except.map]
  | some f1 =>
    cases h3 : f1 key params with
    | ok op => simp [first_constructing, h3, Except.map]
    | error e =>
      cases h6 : e.caught_as_Lookup_Error
      · simp [first_constructing, h3, h6, Except.map]
      · cases h2 : backends.make_openssl_op with
        | none => simp [first_constructing, h3, h6, Except.map]
        | some f2 =>
          cases h4 : f2 key params with
          | ok op => simp [first_constructing, h3, h4, h6, Except.map]
          | error e2 => cases h5 : e2.caught_as_Lookup_Error <;>
              simp [first_constructing, h3, h4, h5, h6, Except.map]

/-- The ordered search ends with an operation when the last candidate constructs and every
failure before it is a `Lookup_Error`. -/
theorem first_constructing_ok {Op : Type} (algo provider : String)
    (cands : List (String × Except Error Op)) (name : String) (last : Op)
    (tried : List String)
    (h : ∀ c e, (c, Except.error e) ∈ cands → e.caught_as_Lookup_Error = true) :
    ∃ op, (first_constructing algo provider (cands ++ [(name, .ok last)]) tried).result =
      .ok op := by
  induction cands generalizing tried with
  | nil => exact ⟨last, rfl⟩
  | cons c rest ih =>
    obtain ⟨cname, cres⟩ := c
    cases cres with
    | ok op => exact ⟨op, rfl⟩
    | error e =>
      have he : e.caught_as_Lookup_Error = true := h cname e (List.mem_cons_self _ _)
      simp only [List.cons_append, first_constructing, he, if_true]
      exact ih _ (fun c e hc => h c e (List.mem_cons_of_mem _ hc))

/-- C9 (as amended): fallback with no backend named. With an empty provider string both
functions go through the built-in candidates in the order bearssl, openssl, base and return
the operation of the first candidate that constructs; an accelerated backend that fails with
a `Lookup_Error` is passed over, any other exception of a backend is reported to the caller;
when every failure of an accelerated backend is a `Lookup_Error` the call returns an
operation. -/
theorem create_op_fallback_when_unnamed
    (vbackends : Backends (ECDSA_PublicKey P) A) (sbackends : Backends (ECDSA_PrivateKey P) A)
    (hash_for_emsa : String → String) (pub : ECDSA_PublicKey P) (priv : ECDSA_PrivateKey P)
    (rng : RandomNumberGenerator) (params : String) :
    (pub.create_verification_op vbackends params "" =
      first_constructing ECDSA_algo_name ""
        (accelerated_candidates vbackends
            (PK_Ops.Verification.accelerated : A → PK_Ops.Verification P A) pub params ++
          [("base", .ok (.ecdsa (ECDSA_Verification_Operation.new pub params)))]) []) ∧
    (priv.create_signature_op sbackends hash_for_emsa rng params "" =
      first_constructing ECDSA_algo_name ""
        (accelerated_candidates sbackends
            (PK_Ops.Signature.accelerated : A → PK_Ops.Signature P A) priv params ++
          [("base", .ok (.ecdsa (ECDSA_Signature_Operation.new hash_for_emsa priv params)))])
        []) ∧
    ((∀ c e, (c, Except.error e) ∈
          accelerated_candidates vbackends
            (PK_Ops.Verification.accelerated : A → PK_Ops.Verification P A) pub params →
        e.caught_as_Lookup_Error = true) →
      ∃ op, (pub.create_verification_op vbackends params "").result = .ok op) ∧
    ((∀ c e, (c, Except.error e) ∈
          accelerated_candidates sbackends
            (PK_Ops.Signature.accelerated : A → PK_Ops.Signature P A) priv params →
        e.caught_as_Lookup_Error = true) →
      ∃ op, (priv.create_signature_op sbackends hash_for_emsa rng params "").result =
        .ok op) := by
  refine ⟨pub.create_verification_op_empty vbackends params,
    priv.create_signature_op_empty sbackends hash_for_emsa rng params, fun h => ?_, fun h => ?_⟩
  · rw [pub.create_verification_op_empty vbackends params]
    exact first_constructing_ok _ _ _ _ _ _ h
  · rw [priv.create_signature_op_empty sbackends hash_for_emsa rng params]
    exact first_constructing_ok _ _ _ _ _ _ h

/-- C10: no fallback for a named backend. When the provider string is `"bearssl"` or
`"openssl"` and that backend is built in, both functions attempt that backend only and hand
its outcome to the caller as it is, the operation or the failure; when it is not built in
nothing is attempted and the call fails with `Provider_Not_Found`; when the provider string
is `"base"` only the software baseline is constructed. -/
theorem create_op_named_backend_only
    (vbackends : Backends (ECDSA_PublicKey P) A) (sbackends : Backends (ECDSA_PrivateKey P) A)
    (hash_for_emsa : String → String) (pub : ECDSA_PublicKey P) (priv : ECDSA_PrivateKey P)
    (rng : RandomNumberGenerator) (params : String) :
    (pub.create_verification_op vbackends params "bearssl" =
      match vbackends.make_bearssl_op with
      | some make_bearssl_ecdsa_ver_op =>
        { attempted := ["bearssl"],
          result := (make_bearssl_ecdsa_ver_op pub params).map .accelerated }
      | none =>
        { attempted := [], result := .error (.Provider_Not_Found "ECDSA" "bearssl") }) ∧
    (pub.create_verification_op vbackends params "openssl" =
      match vbackends.make_openssl_op with
      | some make_openssl_ecdsa_ver_op =>
        { attempted := ["openssl"],
          result := (make_openssl_ecdsa_ver_op pub params).map .accelerated }
      | none =>
        { attempted := [], result := .error (.Provider_Not_Found "ECDSA" "openssl") }) ∧
    (pub.create_verification_op vbackends params "base" =
      { attempted := ["base"],
        result := .ok (.ecdsa (ECDSA_Verification_Operation.new pub params)) }) ∧
    (priv.create_signature_op sbackends hash_for_emsa rng params "bearssl" =
      match sbackends.make_bearssl_op with
      | some make_bearssl_ecdsa_sig_op =>
        { attempted := ["bearssl"],
          result := (make_bearssl_ecdsa_sig_op priv params).map .accelerated }
      | none =>
        { attempted := [], result := .error (.Provider_Not_Found "ECDSA" "bearssl") }) ∧
    (priv.create_signature_op sbackends hash_for_emsa rng params "openssl" =
      match sbackends.make_openssl_op with
      | some make_openssl_ecdsa_sig_op =>
        { attempted := ["openssl"],
          result := (make_openssl_ecdsa_sig_op priv params).map .accelerated }
      | none =>
        { attempted := [], result := .error (.Provider_Not_Found "ECDSA" "openssl") }) ∧
    (priv.create_signature_op sbackends hash_for_emsa rng params "base" =
      { attempted := ["base"],
        result := .ok (.ecdsa (ECDSA_Signature_Operation.new hash_for_emsa priv params)) }) := by
  refine ⟨?_, ?_, ?_, ?_, ?_, ?_⟩
  · unfold ECDSA_PublicKey.create_verification_op
    cases h1 : vbackends.make_bearssl_op with
    | none => cases h2 : vbackends.make_openssl_op <;> simp [ECDSA_algo_name]
    | some f1 =>
      cases h3 : f1 pub params with
      | ok op => simp [Except.map, h3]
      | error e => cases h6 : e.caught_as_Lookup_Error <;> simp [Except.map, h3, h6]
  · unfold ECDSA_PublicKey.create_verification_op
    cases h2 : vbackends.make_openssl_op with
    | none => cases h1 : vbackends.make_bearssl_op <;> simp [ECDSA_algo_name]
    | some f2 =>
      cases h1 : vbackends.make_bearssl_op <;> cases h4 : f2 pub params with
      | ok op => simp [Except.map, h4]
      | error e => cases h6 : e.caught_as_Lookup_Error <;> simp [Except.map, h4, h6]
  · unfold ECDSA_PublicKey.create_verification_op
    cases h1 : vbackends.make_bearssl_op <;> cases h2 : vbackends.make_openssl_op <;> simp
  · unfold ECDSA_PrivateKey.create_signature_op
    cases h1 : sbackends.make_bearssl_op with
    | none => cases h2 : sbackends.make_openssl_op <;> simp [ECDSA_algo_name]
    | some f1 =>
      cases h3 : f1 priv params with
      | ok op => simp [Except.map, h3]
      | error e => cases h6 : e.caught_as_Lookup_Error <;> simp [Except.map, h3, h6]
  · unfold ECDSA_PrivateKey.create_signature_op
    cases h2 : sbackends.make_openssl_op with
    | none => cases h1 : sbackends.make_bearssl_op <;> simp [ECDSA_algo_name]
    | some f2 =>
      cases h1 : sbackends.make_bearssl_op <;> cases h4 : f2 priv params with
      | ok op => simp [Except.map, h4]
      | error e => cases h6 : e.caught_as_Lookup_Error <;> simp [Except.map, h4, h6]
  · unfold ECDSA_PrivateKey.create_signature_op
    cases h1 : sbackends.make_bearssl_op <;> cases h2 : sbackends.make_openssl_op <;> simp

end DispatchClaims

/-- C9 refuted at a concrete input: no backend is named, the OpenSSL backend fails with an
exception that is not a `Lookup_Error`; the dispatcher does not move on to the baseline, the
caller gets the failure. -/
theorem create_op_unnamed_reports_backend_failure :
    (toy_public_key.create_verification_op toy_failing_backends "EMSA1(SHA-256)" "").attempted =
      ["openssl"] ∧
    (toy_public_key.create_verification_op toy_failing_backends "EMSA1(SHA-256)" "").result =
      .error (.Backend_Error "EC_KEY_new_by_curve_name") :=
  ⟨rfl, rfl⟩

section DispatchClaims2

variable {P A : Type}

/-- C11: unknown backend name. For a provider string that is not empty, is not `"base"` and
is not the name of an accelerated backend that is built in, both functions attempt no
construction, return no operation and fail with `Provider_Not_Found` carrying the algorithm
name `"ECDSA"` and the requested provider. -/
theorem create_op_unknown_provider
    (vbackends : Backends (ECDSA_PublicKey P) A) (sbackends : Backends (ECDSA_PrivateKey P) A)
    (hash_for_emsa : String → String) (pub : ECDSA_PublicKey P) (priv : ECDSA_PrivateKey P)
    (rng : RandomNumberGenerator) (params provider : String)
    (hne : provider ≠ "") (hbase : provider ≠ "base")
    (hvb : provider = "bearssl" → vbackends.make_bearssl_op = none)
    (hvo : provider = "openssl" → vbackends.make_openssl_op = none)
    (hsb : provider = "bearssl" → sbackends.make_bearssl_op = none)
    (hso : provider = "openssl" → sbackends.make_openssl_op = none) :
    pub.create_verification_op vbackends params provider =
      { attempted := [], result := .error (.Provider_Not_Found "ECDSA" provider) } ∧
    priv.create_signature_op sbackends hash_for_emsa rng params provider =
      { attempted := [], result := .error (.Provider_Not_Found "ECDSA" provider) } := by
  constructor
  · unfold ECDSA_PublicKey.create_verification_op
    cases h1 : vbackends.make_bearssl_op with
    | none =>
      cases h2 : vbackends.make_openssl_op with
      | none => simp [hne, hbase, ECDSA_algo_name]
      | some f2 =>
        have h4 : provider ≠ "openssl" := fun h => by simp [hvo h] at h2
        simp [hne, hbase, h4, ECDSA_algo_name]
    | some f1 =>
      have h3 : provider ≠ "bearssl" := fun h => by simp [hvb h] at h1
      cases h2 : vbackends.make_openssl_op with
      | none => simp [hne, hbase, h3, ECDSA_algo_name]
      | some f2 =>
        have h4 : provider ≠ "openssl" := fun h => by simp [hvo h] at h2
        simp [hne, hbase, h3, h4, ECDSA_algo_name]
  · unfold ECDSA_PrivateKey.create_signature_op
    cases h1 : sbackends.make_bearssl_op with
    | none =>
      cases h2 : sbackends.make_openssl_op with
      | none => simp [hne, hbase, ECDSA_algo_name]
      | some f2 =>
        have h4 : provider ≠ "openssl" := fun h => by simp [hso h] at h2
        simp [hne, hbase, h4, ECDSA_algo_name]
    | some f1 =>
      have h3 : provider ≠ "bearssl" := fun h => by simp [hsb h] at h1
      cases h2 : sbackends.make_openssl_op with
      | none => simp [hne, hbase, h3, ECDSA_algo_name]
      | some f2 =>
        have h4 : provider ≠ "openssl" := fun h => by simp [hso h] at h2
        simp [hne, hbase, h3, h4, ECDSA_algo_name]

end DispatchClaims2

/-- C11 at a concrete input: the provider `"pkcs11"` in a build with OpenSSL only. -/
theorem create_op_unknown_provider_witness :
    toy_public_key.create_verification_op toy_failing_backends "EMSA1(SHA-256)" "pkcs11" =
      { attempted := [], result := .error (.Provider_Not_Found "ECDSA" "pkcs11") } ∧
    toy_private_key.create_signature_op toy_sign_backends id toy_rng "EMSA1(SHA-256)" "pkcs11" =
      { attempted := [], result := .error (.Provider_Not_Found "ECDSA" "pkcs11") } :=
  create_op_unknown_provider toy_failing_backends toy_sign_backends id toy_public_key
    toy_private_key toy_rng "EMSA1(SHA-256)" "pkcs11" (by decide) (by decide)
    (fun h => absurd h (by decide)) (fun h => absurd h (by decide))
    (fun h => absurd h (by decide)) (fun h => absurd h (by decide))

/-! ## Further claims about signing and verification -/

section MoreLemmas

variable {P : Type} [AddCommGroup P] [DecidableEq P]

/-- What a returned signature tells about the run that produced it. -/
theorem ECDSA_Signature_Operation.raw_sign_ok_shape (spec : NonceSpec)
    (op : ECDSA_Signature_Operation P) (fuel : Nat) (msg : List Byte)
    (rng : RandomNumberGenerator) (sig : List Byte)
    (h : op.raw_sign spec fuel msg rng = some (.ok sig)) :
    ∃ k rng1, op.nonce spec fuel (BigInt.decode msg) rng = some (.ok (k, rng1)) ∧
      op.m_group.get_order ≠ 0 ∧
      (op.m_group.blinded_base_point_multiply k rng1 op.m_ws).1 ≠ 0 ∧
      op.computed_r k rng1 ≠ 0 ∧ op.computed_s (BigInt.decode msg) k rng1 ≠ 0 ∧
      sig = BigInt.be_bytes op.m_group.get_order_bytes (op.computed_r k rng1) ++
        BigInt.be_bytes op.m_group.get_order_bytes
          (op.computed_s (BigInt.decode msg) k rng1) := by
  obtain ⟨k, rng1, hnonce, hsign⟩ := op.nonce_of_raw_sign_ok spec fuel msg rng sig h
  refine ⟨k, rng1, hnonce, ?_⟩
  rw [op.sign_with_nonce_eq] at hsign
  split at hsign
  · cases hsign
  · next hn =>
    split at hsign
    · cases hsign
    · next hR =>
      split at hsign
      · cases hsign
      · next hz =>
        injection hsign with hsig
        exact ⟨hn, hR, fun h0 => hz (Or.inl h0), fun h0 => hz (Or.inr h0), hsig.symm⟩

/-- The two halves of an encoded pair decode to its components. -/
theorem BigInt.decode_pair (len r s : Nat) (hr : r < 256 ^ len) (hs : s < 256 ^ len) :
    (BigInt.be_bytes len r ++ BigInt.be_bytes len s).length = 2 * len ∧
    BigInt.decode ((BigInt.be_bytes len r ++ BigInt.be_bytes len s).take len) = r ∧
    BigInt.decode ((BigInt.be_bytes len r ++ BigInt.be_bytes len s).drop len) = s := by
  refine ⟨?_, ?_, ?_⟩
  · rw [List.length_append, BigInt.be_bytes_length, BigInt.be_bytes_length]
    omega
  · rw [List.take_left' (BigInt.be_bytes_length _ _), BigInt.decode_be_bytes,
      Nat.mod_eq_of_lt hr]
  · rw [List.drop_left' (BigInt.be_bytes_length _ _), BigInt.decode_be_bytes,
      Nat.mod_eq_of_lt hs]

omit [AddCommGroup P] [DecidableEq P] in
/-- The scalar `u1` depends on the message integer only modulo the order. -/
theorem EC_Group.multiply_mod_order_congr (g : EC_Group P) (a b w : Nat)
    (h : a % g.get_order = b % g.get_order) :
    g.multiply_mod_order a w = g.multiply_mod_order b w := by
  unfold EC_Group.multiply_mod_order
  unfold EC_Group.get_order at h
  rw [Nat.mul_mod a w, Nat.mul_mod b w, h]

end MoreLemmas

section MoreClaims

variable {P : Type} [AddCommGroup P] [DecidableEq P]

/-- C13: signature components are in range. Whenever `raw_sign` returns a signature, the
`r` and `s` it encodes satisfy `1 ≤ r ≤ n - 1` and `1 ≤ s ≤ n - 1`, the two halves decode to
them, and the range test of `verify` (line 139) does not reject them. -/
theorem raw_sign_components_in_range (spec : NonceSpec) (op : ECDSA_Signature_Operation P)
    (fuel : Nat) (msg : List Byte) (rng : RandomNumberGenerator) (sig : List Byte)
    (h : op.raw_sign spec fuel msg rng = some (.ok sig)) :
    ∃ k rng1, op.nonce spec fuel (BigInt.decode msg) rng = some (.ok (k, rng1)) ∧
      BigInt.decode (sig.take (sig.length / 2)) = op.computed_r k rng1 ∧
      BigInt.decode ((sig.drop (sig.length / 2)).take (sig.length / 2)) =
        op.computed_s (BigInt.decode msg) k rng1 ∧
      1 ≤ op.computed_r k rng1 ∧ op.computed_r k rng1 ≤ op.m_group.get_order - 1 ∧
      1 ≤ op.computed_s (BigInt.decode msg) k rng1 ∧
      op.computed_s (BigInt.decode msg) k rng1 ≤ op.m_group.get_order - 1 ∧
      ¬ (BigInt.decode (sig.take (sig.length / 2)) ≤ 0 ∨
        BigInt.decode (sig.take (sig.length / 2)) ≥ op.m_group.get_order ∨
        BigInt.decode ((sig.drop (sig.length / 2)).take (sig.length / 2)) ≤ 0 ∨
        BigInt.decode ((sig.drop (sig.length / 2)).take (sig.length / 2)) ≥
          op.m_group.get_order) := by
  obtain ⟨k, rng1, hnonce, hn, _, hr0, hs0, hsig⟩ := op.raw_sign_ok_shape spec fuel msg rng sig h
  refine ⟨k, rng1, hnonce, ?_⟩
  have hpos : 0 < op.m_group.get_order := Nat.pos_of_ne_zero hn
  have hrn : op.computed_r k rng1 < op.m_group.get_order := Nat.mod_lt _ hpos
  have hsn : op.computed_s (BigInt.decode msg) k rng1 < op.m_group.get_order :=
    Nat.mod_lt _ hpos
  obtain ⟨hlen, hdr, hds⟩ := BigInt.decode_pair op.m_group.get_order_bytes _ _
    (op.m_group.lt_pow_order_bytes _ hrn) (op.m_group.lt_pow_order_bytes _ hsn)
  rw [← hsig] at hlen hdr hds
  have hhalf : sig.length / 2 = op.m_group.get_order_bytes := by omega
  have htake : (sig.drop op.m_group.get_order_bytes).take op.m_group.get_order_bytes =
      sig.drop op.m_group.get_order_bytes :=
    List.take_of_length_le (by rw [List.length_drop]; omega)
  rw [hhalf, htake, hdr, hds]
  refine ⟨rfl, rfl, ?_, ?_, ?_, ?_, ?_⟩ <;> omega

/-- C18: verification depends on the message only modulo the group order. Two messages whose
big-endian values are congruent modulo `n` get the same answer from `verify`, for every
public point and every signature. -/
theorem verify_depends_on_message_mod_order (op : ECDSA_Verification_Operation P)
    (msg1 msg2 sig : List Byte)
    (h : BigInt.decode msg1 % op.m_group.get_order = BigInt.decode msg2 % op.m_group.get_order) :
    op.verify msg1 sig = op.verify msg2 sig := by
  rw [op.verify_eq, op.verify_eq]
  simp only [op.m_group.multiply_mod_order_congr _ _ _ h]

end MoreClaims

/-- C13 at a concrete input: the signature `[7, 9]` of message `[3]`. -/
theorem raw_sign_components_in_range_witness :
    ∃ k rng1, (toy_sign_op 7).nonce (toy_nonce 10) 0 (BigInt.decode [3]) toy_rng =
        some (.ok (k, rng1)) ∧
      BigInt.decode (([7, 9] : List Byte).take (([7, 9] : List Byte).length / 2)) =
        (toy_sign_op 7).computed_r k rng1 ∧
      BigInt.decode ((([7, 9] : List Byte).drop (([7, 9] : List Byte).length / 2)).take
          (([7, 9] : List Byte).length / 2)) =
        (toy_sign_op 7).computed_s (BigInt.decode [3]) k rng1 ∧
      1 ≤ (toy_sign_op 7).computed_r k rng1 ∧
      (toy_sign_op 7).computed_r k rng1 ≤ (toy_sign_op 7).m_group.get_order - 1 ∧
      1 ≤ (toy_sign_op 7).computed_s (BigInt.decode [3]) k rng1 ∧
      (toy_sign_op 7).computed_s (BigInt.decode [3]) k rng1 ≤
        (toy_sign_op 7).m_group.get_order - 1 ∧
      ¬ (BigInt.decode (([7, 9] : List Byte).take (([7, 9] : List Byte).length / 2)) ≤ 0 ∨
        BigInt.decode (([7, 9] : List Byte).take (([7, 9] : List Byte).length / 2)) ≥
          (toy_sign_op 7).m_group.get_order ∨
        BigInt.decode ((([7, 9] : List Byte).drop (([7, 9] : List Byte).length / 2)).take
          (([7, 9] : List Byte).length / 2)) ≤ 0 ∨
        BigInt.decode ((([7, 9] : List Byte).drop (([7, 9] : List Byte).length / 2)).take
          (([7, 9] : List Byte).length / 2)) ≥ (toy_sign_op 7).m_group.get_order) :=
  raw_sign_components_in_range (toy_nonce 10) (toy_sign_op 7) 0 [3] toy_rng [7, 9] (by decide)

/-- C18 at a concrete input: the messages `[3]` and `[0, 22]`, equal modulo 19. -/
theorem verify_depends_on_message_mod_order_witness :
    BigInt.decode [3] % 19 = BigInt.decode [0, 22] % 19 ∧
    (toy_verify_op 7).verify [3] [7, 9] = (toy_verify_op 7).verify [0, 22] [7, 9] ∧
    (toy_verify_op 7).verify [0, 22] [7, 9] = .ok true :=
  ⟨by decide,
   verify_depends_on_message_mod_order (toy_verify_op 7) [3] [0, 22] [7, 9] (by decide),
   by decide⟩

section MoreClaims2

variable {P : Type} [AddCommGroup P] [DecidableEq P]

/-- C14: signing computes the ECDSA equations. For a base point of order `n`, every private
scalar `d`, digest integer `m` and nonce `k` invertible modulo `n`: when `raw_sign` returns
a signature, it is the encoding of `r = x(k G) mod n` and
`s = k⁻¹ ((m + r d) mod n) mod n`, where `k⁻¹` is a number below `n` with
`k k⁻¹ mod n = 1`; the unreduced `d r + m` of the code gives the same `s`. -/
theorem raw_sign_computes_ecdsa (spec : NonceSpec) (op : ECDSA_Signature_Operation P)
    (fuel : Nat) (msg : List Byte) (rng rng1 : RandomNumberGenerator) (k : Nat)
    (sig : List Byte)
    (hG : op.m_group.order • op.m_group.base_point = 0)
    (hnonce : op.nonce spec fuel (BigInt.decode msg) rng = some (.ok (k, rng1)))
    (hk : Nat.Coprime k op.m_group.order)
    (hsig : op.raw_sign spec fuel msg rng = some (.ok sig)) :
    ∃ kinv r s,
      kinv < op.m_group.order ∧ k * kinv % op.m_group.order = 1 ∧
      r = op.m_group.affine_x (k • op.m_group.base_point) % op.m_group.order ∧
      s = kinv * ((BigInt.decode msg + r * op.m_x) % op.m_group.order) % op.m_group.order ∧
      s = kinv * (op.m_x * r + BigInt.decode msg) % op.m_group.order ∧
      sig = BigInt.be_bytes op.m_group.get_order_bytes r ++
        BigInt.be_bytes op.m_group.get_order_bytes s ∧
      BigInt.decode (sig.take op.m_group.get_order_bytes) = r ∧
      BigInt.decode (sig.drop op.m_group.get_order_bytes) = s := by
  obtain ⟨k2, rng2, hnonce2, hn, _, hr0, _, hsigeq⟩ :=
    op.raw_sign_ok_shape spec fuel msg rng sig hsig
  rw [hnonce] at hnonce2
  simp only [Option.some.injEq, Except.ok.injEq, Prod.mk.injEq] at hnonce2
  obtain ⟨hk2, hrng2⟩ := hnonce2
  subst hk2 hrng2
  have hn0 : op.m_group.order ≠ 0 := hn
  have hpos : 0 < op.m_group.order := Nat.pos_of_ne_zero hn0
  have hrdef : op.computed_r k rng1 =
      op.m_group.affine_x (k • op.m_group.base_point) % op.m_group.order := by
    unfold ECDSA_Signature_Operation.computed_r EC_Group.mod_order
    rw [op.m_group.blinded_base_point_multiply_eq k rng1 op.m_ws hG]
  have hn1 : 1 < op.m_group.order := by
    rcases Nat.lt_or_ge 1 op.m_group.order with h | h
    · exact h
    · exfalso
      apply hr0
      rw [hrdef]
      have : op.m_group.order = 1 := by omega
      rw [this, Nat.mod_one]
  have hsdef : op.computed_s (BigInt.decode msg) k rng1 =
      inverse_mod_value k op.m_group.order *
        (op.m_x * op.computed_r k rng1 + BigInt.decode msg) % op.m_group.order := rfl
  have hrn : op.computed_r k rng1 < op.m_group.get_order := by
    rw [hrdef]
    exact Nat.mod_lt _ hpos
  have hsn : op.computed_s (BigInt.decode msg) k rng1 < op.m_group.get_order :=
    Nat.mod_lt _ hpos
  obtain ⟨_, hdr, hds⟩ := BigInt.decode_pair op.m_group.get_order_bytes _ _
    (op.m_group.lt_pow_order_bytes _ hrn) (op.m_group.lt_pow_order_bytes _ hsn)
  rw [← hsigeq] at hdr hds
  refine ⟨inverse_mod_value k op.m_group.order, op.computed_r k rng1,
    op.computed_s (BigInt.decode msg) k rng1, inverse_mod_value_lt k _ hpos,
    mul_inverse_mod_value k _ hn1 hk, hrdef, ?_, hsdef, hsigeq, hdr, hds⟩
  rw [hsdef]
  conv_rhs => rw [Nat.mul_mod, Nat.mod_mod, ← Nat.mul_mod]
  rw [Nat.add_comm (BigInt.decode msg), Nat.mul_comm (op.computed_r k rng1)]

/-- C15: verification acceptance condition. For a signature of length `2 * order_bytes` whose
decoded `r` and `s` lie strictly between `0` and `n`, with `w` the value `inverse_mod`
returns for `s` (it satisfies `s w mod n = 1` when `s` is invertible), `u1 = m w mod n` and
`u2 = r w mod n`: `verify` returns `true` exactly when `R = u1 G + u2 Q` is not the point at
infinity and `x(R) mod n = r`, and `false` otherwise. -/
theorem verify_accepts_iff (op : ECDSA_Verification_Operation P) (msg sig : List Byte)
    (r s w u1 u2 : Nat) (R : P)
    (hlen : sig.length = 2 * op.m_group.get_order_bytes)
    (hr : r = BigInt.decode (sig.take op.m_group.get_order_bytes))
    (hs : s = BigInt.decode (sig.drop op.m_group.get_order_bytes))
    (hr_range : 0 < r ∧ r < op.m_group.order) (hs_range : 0 < s ∧ s < op.m_group.order)
    (hw : inverse_mod s op.m_group.order = .ok w)
    (hu1 : u1 = BigInt.decode msg * w % op.m_group.order)
    (hu2 : u2 = r * w % op.m_group.order)
    (hR : R = u1 • op.m_group.base_point + u2 • op.m_public_point) :
    (Nat.Coprime s op.m_group.order → s * w % op.m_group.order = 1) ∧
    (op.verify msg sig = .ok true ↔
      (R ≠ 0 ∧ op.m_group.affine_x R % op.m_group.order = r)) ∧
    (op.verify msg sig = .ok false ↔
      ¬ (R ≠ 0 ∧ op.m_group.affine_x R % op.m_group.order = r)) := by
  have hn0 : op.m_group.order ≠ 0 := by omega
  have hwv : w = inverse_mod_value s op.m_group.order := by
    simp only [inverse_mod, if_neg hn0, Except.ok.injEq] at hw
    exact hw.symm
  have hhalf : sig.length / 2 = op.m_group.get_order_bytes := by omega
  have htake : (sig.drop op.m_group.get_order_bytes).take op.m_group.get_order_bytes =
      sig.drop op.m_group.get_order_bytes :=
    List.take_of_length_le (by rw [List.length_drop]; omega)
  have hrange : ¬ (r ≤ 0 ∨ r ≥ op.m_group.get_order ∨ s ≤ 0 ∨ s ≥ op.m_group.get_order) := by
    unfold EC_Group.get_order
    omega
  have hpoint : op.m_group.point_multiply
      (op.m_group.multiply_mod_order (BigInt.decode msg)
        (inverse_mod_value s op.m_group.get_order))
      op.m_public_point
      (op.m_group.multiply_mod_order r (inverse_mod_value s op.m_group.get_order)) = R := by
    rw [hR, hu1, hu2, hwv]
    rfl
  refine ⟨fun hc => ?_, ?_, ?_⟩
  · rw [hwv]
    exact mul_inverse_mod_value s _ (by omega) hc
  · rw [op.verify_eq, if_neg (by omega)]
    dsimp only
    rw [hhalf, htake, ← hr, ← hs, if_neg hrange, hpoint]
    by_cases hz : R = 0
    · rw [if_pos hz]
      simp [hz]
    · rw [if_neg hz]
      simp [hz, EC_Group.mod_order]
  · rw [op.verify_eq, if_neg (by omega)]
    dsimp only
    rw [hhalf, htake, ← hr, ← hs, if_neg hrange, hpoint]
    by_cases hz : R = 0
    · rw [if_pos hz]
      simp [hz]
    · rw [if_neg hz]
      simp [hz, EC_Group.mod_order]

/-- C19: signing never takes the affine coordinate of the point at infinity. For a base
point of prime order `n` and a nonce `k` in `[1, n-1]`, the point computed in `raw_sign` is
`k G` and is not the point at infinity, `k` has an inverse modulo `n`, `inverse_mod` and
`get_affine_x` return, and `raw_sign` ends either with a signature or with the zero `r/s`
internal error. -/
theorem raw_sign_only_zero_error (spec : NonceSpec) (op : ECDSA_Signature_Operation P)
    (fuel : Nat) (msg : List Byte) (rng rng1 : RandomNumberGenerator) (k : Nat)
    (hp : op.m_group.order.Prime)
    (hG : op.m_group.order • op.m_group.base_point = 0)
    (hG0 : op.m_group.base_point ≠ 0)
    (hnonce : op.nonce spec fuel (BigInt.decode msg) rng = some (.ok (k, rng1)))
    (hk : 1 ≤ k ∧ k ≤ op.m_group.order - 1) :
    (op.m_group.blinded_base_point_multiply k rng1 op.m_ws).1 = k • op.m_group.base_point ∧
    k • op.m_group.base_point ≠ 0 ∧
    inverse_mod k op.m_group.get_order = .ok (inverse_mod_value k op.m_group.order) ∧
    k * inverse_mod_value k op.m_group.order % op.m_group.order = 1 ∧
    PointGFp.get_affine_x op.m_group
        (op.m_group.blinded_base_point_multiply k rng1 op.m_ws).1 =
      .ok (op.m_group.affine_x (k • op.m_group.base_point)) ∧
    ((∃ sig, op.raw_sign spec fuel msg rng = some (.ok sig)) ∨
      op.raw_sign spec fuel msg rng =
        some (.error (.Internal_Error "During ECDSA signature generated zero r/s"))) := by
  have hn1 : 1 < op.m_group.order := hp.one_lt
  have hn0 : op.m_group.get_order ≠ 0 := by
    show op.m_group.order ≠ 0
    omega
  have hR := op.m_group.blinded_base_point_multiply_eq k rng1 op.m_ws hG
  have hkG : k • op.m_group.base_point ≠ 0 :=
    nsmul_ne_zero_of_prime_order _ _ k hp hG hG0 (by omega) (by omega)
  have hR0 : (op.m_group.blinded_base_point_multiply k rng1 op.m_ws).1 ≠ 0 := by
    rw [hR]
    exact hkG
  refine ⟨hR, hkG, ?_, ?_, ?_, ?_⟩
  · simp only [inverse_mod, if_neg hn0]
    rfl
  · exact mul_inverse_mod_value k _ hn1
      (Nat.coprime_of_lt_prime (by omega) (by omega) hp).symm
  · simp only [PointGFp.get_affine_x, PointGFp.is_zero, decide_eq_true_eq, hR, if_neg hkG]
  · rw [op.raw_sign_of_nonce spec fuel msg rng rng1 k hnonce, op.sign_with_nonce_eq,
      if_neg hn0, if_neg hR0]
    split
    · exact Or.inr rfl
    · exact Or.inl ⟨_, rfl⟩

end MoreClaims2

/-- C14 at a concrete input: `d = 7`, `m = 3`, `k = 10` on the example group. -/
theorem raw_sign_computes_ecdsa_witness :
    ∃ kinv r s,
      kinv < 19 ∧ 10 * kinv % 19 = 1 ∧
      r = toy_group.affine_x (10 • toy_group.base_point) % 19 ∧
      s = kinv * ((BigInt.decode [3] + r * 7) % 19) % 19 ∧
      s = kinv * (7 * r + BigInt.decode [3]) % 19 ∧
      ([7, 9] : List Byte) = BigInt.be_bytes toy_group.get_order_bytes r ++
        BigInt.be_bytes toy_group.get_order_bytes s ∧
      BigInt.decode (([7, 9] : List Byte).take toy_group.get_order_bytes) = r ∧
      BigInt.decode (([7, 9] : List Byte).drop toy_group.get_order_bytes) = s :=
  raw_sign_computes_ecdsa (toy_nonce 10) (toy_sign_op 7) 0 [3] toy_rng toy_rng 10 [7, 9]
    (by decide) rfl (by norm_num [toy_sign_op, toy_group]) (by decide)

/-- C15 at a concrete input: the signature `[7, 9]` of message `[3]` under `Q = 7 G`; here
`w = 17`, `u1 = 13`, `u2 = 5` and `R = 10 G`. -/
theorem verify_accepts_iff_witness :
    (Nat.Coprime 9 19 → 9 * 17 % 19 = 1) ∧
    ((toy_verify_op 7).verify [3] [7, 9] = .ok true ↔
      ((10 : ZMod 19) ≠ 0 ∧ toy_group.affine_x (10 : ZMod 19) % 19 = 7)) ∧
    ((toy_verify_op 7).verify [3] [7, 9] = .ok false ↔
      ¬ ((10 : ZMod 19) ≠ 0 ∧ toy_group.affine_x (10 : ZMod 19) % 19 = 7)) :=
  verify_accepts_iff (toy_verify_op 7) [3] [7, 9] 7 9 17 13 5 10 (by decide) (by decide)
    (by decide) (by decide) (by decide) (by decide) (by decide) (by decide) (by decide)

/-- C19 at a concrete input: nonce 10 on the example group. -/
theorem raw_sign_only_zero_error_witness :
    (10 : Nat) • toy_group.base_point ≠ 0 ∧
    10 * inverse_mod_value 10 19 % 19 = 1 ∧
    ((∃ sig, (toy_sign_op 7).raw_sign (toy_nonce 10) 0 [3] toy_rng = some (.ok sig)) ∨
      (toy_sign_op 7).raw_sign (toy_nonce 10) 0 [3] toy_rng =
        some (.error (.Internal_Error "During ECDSA signature generated zero r/s"))) :=
  have h := raw_sign_only_zero_error (toy_nonce 10) (toy_sign_op 7) 0 [3] toy_rng toy_rng 10
    (by norm_num [toy_sign_op, toy_group]) (by decide) (by decide) rfl (by decide)
  ⟨h.2.1, h.2.2.2.1, h.2.2.2.2.2⟩

/-! ## The random nonce and the key check -/

/-- A value that leaves the retry loop lies in `[min, max)`. -/
theorem BigInt.random_integer_loop_range (min max fuel : Nat) (rng rng1 : RandomNumberGenerator)
    (k : Nat) (h : BigInt.random_integer_loop min max fuel rng = some (k, rng1)) :
    min ≤ k ∧ k < max := by
  induction fuel generalizing rng with
  | zero => simp [BigInt.random_integer_loop] at h
  | succ fuel ih =>
    unfold BigInt.random_integer_loop at h
    simp only at h
    split at h
    · exact ih _ h
    · next hin =>
      simp only [Option.some.injEq, Prod.mk.injEq] at h
      rw [← h.1]
      omega

/-- The retry loop ends when one of the next `fuel` values of the source lies in
`[min, max)`. -/
theorem BigInt.random_integer_loop_returns (min max fuel : Nat) (rng : RandomNumberGenerator)
    (j : Nat) (hj : j < fuel) (hmin : min ≤ rng.stream (rng.pos + j))
    (hmax : rng.stream (rng.pos + j) < max) :
    ∃ k rng1, BigInt.random_integer_loop min max fuel rng = some (k, rng1) := by
  induction fuel generalizing rng j with
  | zero => omega
  | succ fuel ih =>
    unfold BigInt.random_integer_loop
    simp only
    split
    · next hout =>
      cases j with
      | zero =>
        exfalso
        simp only [RandomNumberGenerator.next, Nat.add_zero] at hout hmin hmax
        omega
      | succ j =>
        apply ih _ j (by omega)
        · simp only [RandomNumberGenerator.next]
          rw [Nat.add_assoc, Nat.add_comm 1 j]
          exact hmin
        · simp only [RandomNumberGenerator.next]
          rw [Nat.add_assoc, Nat.add_comm 1 j]
          exact hmax
    · exact ⟨_, _, rfl⟩

section RandomNonce

variable {P : Type} [AddCommGroup P] [DecidableEq P]

/-- C16: random-mode nonce range. Without the deterministic generator, for every state of
the randomness source the nonce that `raw_sign` draws satisfies `1 ≤ k ≤ n - 1`; this holds
for the nonce of every run that returns a signature, and a nonce is drawn as soon as one of
the next values of the source lies in `[1, n - 1]`. -/
theorem random_nonce_in_range (op : ECDSA_Signature_Operation P) (fuel : Nat)
    (msg : List Byte) (rng : RandomNumberGenerator) :
    (∀ k rng1, op.nonce .random fuel (BigInt.decode msg) rng = some (.ok (k, rng1)) →
      1 ≤ k ∧ k ≤ op.m_group.get_order - 1 ∧ k ≠ 0 ∧ k < op.m_group.get_order) ∧
    (∀ sig, op.raw_sign .random fuel msg rng = some (.ok sig) →
      ∃ k rng1, op.nonce .random fuel (BigInt.decode msg) rng = some (.ok (k, rng1)) ∧
        1 ≤ k ∧ k ≤ op.m_group.get_order - 1) ∧
    (∀ j, j < fuel → 1 ≤ rng.stream (rng.pos + j) →
      rng.stream (rng.pos + j) ≤ op.m_group.get_order - 1 →
      ∃ k rng1, op.nonce .random fuel (BigInt.decode msg) rng = some (.ok (k, rng1))) := by
  have hrange : ∀ k rng1,
      op.nonce .random fuel (BigInt.decode msg) rng = some (.ok (k, rng1)) →
      1 ≤ k ∧ k < op.m_group.get_order := by
    intro k rng1 h
    simp only [ECDSA_Signature_Operation.nonce, BigInt.random_integer] at h
    split at h
    · simp at h
    · cases hl : BigInt.random_integer_loop 1 op.m_group.get_order fuel rng with
      | none => simp [hl] at h
      | some res =>
        obtain ⟨k2, rng2⟩ := res
        simp only [hl, Option.map_some', Option.some.injEq, Except.ok.injEq,
          Prod.mk.injEq] at h
        have := BigInt.random_integer_loop_range _ _ _ _ _ _ hl
        rw [← h.1]
        exact this
  refine ⟨fun k rng1 h => ?_, fun sig h => ?_, fun j hj h1 h2 => ?_⟩
  · have := hrange k rng1 h
    omega
  · obtain ⟨k, rng1, hnonce, _⟩ := op.raw_sign_ok_shape .random fuel msg rng sig h
    have := hrange k rng1 hnonce
    exact ⟨k, rng1, hnonce, by omega, by omega⟩
  · have hn : ¬ op.m_group.get_order ≤ 1 := by omega
    obtain ⟨k, rng1, hl⟩ := BigInt.random_integer_loop_returns 1 op.m_group.get_order fuel
      rng j hj h1 (by omega)
    exact ⟨k, rng1, by simp [ECDSA_Signature_Operation.nonce, BigInt.random_integer, hn, hl]⟩

end RandomNonce

/-- C16 at a concrete input: the example source hands out 2 first, which is the nonce. -/
theorem random_nonce_in_range_witness :
    (toy_sign_op 7).raw_sign .random 5 [3] toy_rng = some (.ok [6, 13]) ∧
    ∃ k rng1, (toy_sign_op 7).nonce .random 5 (BigInt.decode [3]) toy_rng =
        some (.ok (k, rng1)) ∧
      1 ≤ k ∧ k ≤ (toy_sign_op 7).m_group.get_order - 1 :=
  ⟨by decide,
   (random_nonce_in_range (toy_sign_op 7) 5 [3] toy_rng).2.1 [6, 13] (by decide)⟩

section KeyCheckClaims

variable {P : Type} [AddCommGroup P] [DecidableEq P]

/-- C12: key consistency check. `check_key` returns a boolean computed from the key, which it
only reads. It returns `false` whenever the public point is not on the curve; when the point
is on the curve and `strong` is false it returns `true`; when the point is on the curve and
`strong` is true it returns `true` exactly when signing the test message with the
hash-encoding `"EMSA1(SHA-256)"` returns a signature that `verify` accepts against the
public point of the key. -/
theorem check_key_result (env : KeyCheckEnv P) (key : ECDSA_PrivateKey P)
    (rng : RandomNumberGenerator) (strong : Bool) :
    (env.on_the_curve key.public_point = false → key.check_key env rng strong = false) ∧
    (env.on_the_curve key.public_point = true → key.check_key env rng false = true) ∧
    (env.on_the_curve key.public_point = true →
      key.check_key env rng true =
        KeyPair.signature_consistency_check env rng key "EMSA1(SHA-256)") ∧
    (env.on_the_curve key.public_point = true →
      (key.check_key env rng true = true ↔
        ∃ sig,
          (ECDSA_Signature_Operation.new env.hash_for_emsa key "EMSA1(SHA-256)").raw_sign
            env.nonce_spec env.fuel (env.emsa_encode "EMSA1(SHA-256)" env.test_message) rng =
            some (.ok sig) ∧
          ECDSA_Verification_Operation.verify
            { m_group := key.domain, m_public_point := key.public_point }
            (env.emsa_encode "EMSA1(SHA-256)" env.test_message) sig = .ok true)) := by
  refine ⟨fun h => ?_, fun h => ?_, fun h => ?_, fun h => ?_⟩
  · simp [ECDSA_PrivateKey.check_key, h]
  · simp [ECDSA_PrivateKey.check_key, h]
  · simp [ECDSA_PrivateKey.check_key, h]
  · simp only [ECDSA_PrivateKey.check_key, h, Bool.not_true, Bool.false_eq_true, if_false,
      KeyPair.signature_consistency_check, ECDSA_Verification_Operation.new]
    cases hs : (ECDSA_Signature_Operation.new env.hash_for_emsa key "EMSA1(SHA-256)").raw_sign
        env.nonce_spec env.fuel (env.emsa_encode "EMSA1(SHA-256)" env.test_message) rng with
    | none => simp
    | some res =>
      cases res with
      | error e => simp
      | ok sig =>
        cases hv : ECDSA_Verification_Operation.verify
            { m_group := key.domain, m_public_point := key.public_point }
            (env.emsa_encode "EMSA1(SHA-256)" env.test_message) sig with
        | error e => simp [hv]
        | ok b => simp [hv]

end KeyCheckClaims

/-- C12 at concrete inputs: the strong check of the example key passes, and a key whose
point is reported off the curve fails both checks. -/
theorem check_key_result_witness :
    toy_private_key.check_key toy_key_check_env toy_rng true = true ∧
    toy_private_key.check_key toy_key_check_env toy_rng false = true ∧
    toy_private_key.check_key toy_key_check_env_off_curve toy_rng true = false ∧
    toy_private_key.check_key toy_key_check_env_off_curve toy_rng false = false :=
  ⟨((check_key_result toy_key_check_env toy_private_key toy_rng true).2.2.2 rfl).mpr
      ⟨[7, 9], by decide, by decide⟩,
   (check_key_result toy_key_check_env toy_private_key toy_rng true).2.1 rfl,
   (check_key_result toy_key_check_env_off_curve toy_private_key toy_rng true).1 rfl,
   (check_key_result toy_key_check_env_off_curve toy_private_key toy_rng false).1 rfl⟩

/-! ## Malleability -/

/-- Negating `s` negates its inverse, hence both scalars of the verifier, modulo `n`. -/
theorem negated_scalar_cancels (n s w w2 a : Nat) (hs : s ≤ n)
    (h1 : s * w % n = 1 % n) (h2 : (n - s) * w2 % n = 1 % n) :
    ((a * w2) % n + (a * w) % n) % n = 0 % n := by
  have e1 : ((s : ZMod n) * w) = 1 := by
    have := (ZMod.natCast_eq_natCast_iff' (s * w) 1 n).mpr h1
    simpa using this
  have e2 : (-(s : ZMod n)) * w2 = 1 := by
    have := (ZMod.natCast_eq_natCast_iff' ((n - s) * w2) 1 n).mpr h2
    rw [Nat.cast_mul, Nat.cast_sub hs] at this
    simpa using this
  apply (ZMod.natCast_eq_natCast_iff' _ _ n).mp
  push_cast
  simp only [ZMod.natCast_mod]
  push_cast
  linear_combination (-(a : ZMod n) * w2) * e1 + (-(a : ZMod n) * w) * e2

section Malleability

variable {P : Type} [AddCommGroup P] [DecidableEq P]

/-- When `verify` answers `true`: the conjunction of the tests of lines 131-152. -/
theorem ECDSA_Verification_Operation.verify_eq_true_iff (op : ECDSA_Verification_Operation P)
    (msg sig : List Byte) :
    op.verify msg sig = .ok true ↔
      sig.length = 2 * op.m_group.get_order_bytes ∧
      0 < BigInt.decode (sig.take op.m_group.get_order_bytes) ∧
      BigInt.decode (sig.take op.m_group.get_order_bytes) < op.m_group.order ∧
      0 < BigInt.decode (sig.drop op.m_group.get_order_bytes) ∧
      BigInt.decode (sig.drop op.m_group.get_order_bytes) < op.m_group.order ∧
      op.m_group.point_multiply
        (op.m_group.multiply_mod_order (BigInt.decode msg)
          (inverse_mod_value (BigInt.decode (sig.drop op.m_group.get_order_bytes))
            op.m_group.order))
        op.m_public_point
        (op.m_group.multiply_mod_order (BigInt.decode (sig.take op.m_group.get_order_bytes))
          (inverse_mod_value (BigInt.decode (sig.drop op.m_group.get_order_bytes))
            op.m_group.order)) ≠ 0 ∧
      op.m_group.affine_x (op.m_group.point_multiply
        (op.m_group.multiply_mod_order (BigInt.decode msg)
          (inverse_mod_value (BigInt.decode (sig.drop op.m_group.get_order_bytes))
            op.m_group.order))
        op.m_public_point
        (op.m_group.multiply_mod_order (BigInt.decode (sig.take op.m_group.get_order_bytes))
          (inverse_mod_value (BigInt.decode (sig.drop op.m_group.get_order_bytes))
            op.m_group.order))) % op.m_group.order =
        BigInt.decode (sig.take op.m_group.get_order_bytes) := by
  rw [op.verify_eq]
  by_cases hlen : sig.length = 2 * op.m_group.get_order_bytes
  · have hhalf : sig.length / 2 = op.m_group.get_order_bytes := by omega
    have htake : (sig.drop op.m_group.get_order_bytes).take op.m_group.get_order_bytes =
        sig.drop op.m_group.get_order_bytes :=
      List.take_of_length_le (by rw [List.length_drop]; omega)
    rw [if_neg (by omega)]
    dsimp only
    rw [hhalf, htake]
    unfold EC_Group.get_order EC_Group.mod_order
    split
    · next hout =>
      constructor
      · intro h
        cases h
      · intro h
        omega
    · next hin =>
      split
      · next hz =>
        constructor
        · intro h
          cases h
        · intro h
          exact absurd hz h.2.2.2.2.2.1
      · next hz =>
        constructor
        · intro h
          simp only [Except.ok.injEq, decide_eq_true_eq] at h
          exact ⟨hlen, by omega, by omega, by omega, by omega, hz, h⟩
        · intro h
          simp only [Except.ok.injEq, decide_eq_true_eq]
          exact h.2.2.2.2.2.2
  · rw [if_pos (by omega)]
    constructor
    · intro h
      cases h
    · intro h
      exact absurd h.1 hlen

/-- C17 (as amended): signature malleability. For a group of prime order `n` whose base
point has order `n`, a public point `Q` with `n Q` the point at infinity and a curve on
which a point and its negative have the same x-coordinate: when `verify` accepts a signature
`(r, s)`, it also accepts `(r, n - s)` encoded at the same length; when `n` is not 2 that is
a different byte string, so the accepted signature is not the only one for its message. -/
theorem verify_accepts_negated_s (op : ECDSA_Verification_Operation P) (msg sig : List Byte)
    (hp : op.m_group.order.Prime)
    (hG : op.m_group.order • op.m_group.base_point = 0)
    (hQ : op.m_group.order • op.m_public_point = 0)
    (hneg : ∀ pt : P, op.m_group.affine_x (-pt) = op.m_group.affine_x pt)
    (hacc : op.verify msg sig = .ok true) :
    op.verify msg
        (BigInt.be_bytes op.m_group.get_order_bytes
            (BigInt.decode (sig.take op.m_group.get_order_bytes)) ++
          BigInt.be_bytes op.m_group.get_order_bytes
            (op.m_group.order - BigInt.decode (sig.drop op.m_group.get_order_bytes))) =
      .ok true ∧
    (op.m_group.order ≠ 2 →
      BigInt.be_bytes op.m_group.get_order_bytes
            (BigInt.decode (sig.take op.m_group.get_order_bytes)) ++
          BigInt.be_bytes op.m_group.get_order_bytes
            (op.m_group.order - BigInt.decode (sig.drop op.m_group.get_order_bytes)) ≠
        sig) := by
  obtain ⟨hlen, hr0, hrn, hs0, hsn, hR0, hx⟩ := (op.verify_eq_true_iff msg sig).mp hacc
  set L := op.m_group.get_order_bytes with hL
  set n := op.m_group.order with hn
  set r := BigInt.decode (sig.take L) with hr
  set s := BigInt.decode (sig.drop L) with hs
  have hn1 : 1 < n := hp.one_lt
  have hrL : r < 256 ^ L := op.m_group.lt_pow_order_bytes r hrn
  have hs2n : n - s < n := by omega
  have hs2L : n - s < 256 ^ L := op.m_group.lt_pow_order_bytes (n - s) hs2n
  obtain ⟨hlen2, hdr2, hds2⟩ := BigInt.decode_pair L r (n - s) hrL hs2L
  -- the inverses of s and of n - s
  have hw : s * inverse_mod_value s n % n = 1 % n := by
    rw [Nat.mod_eq_of_lt hn1]
    exact mul_inverse_mod_value s n hn1 (Nat.coprime_of_lt_prime hs0 hsn hp).symm
  have hw2 : (n - s) * inverse_mod_value (n - s) n % n = 1 % n := by
    rw [Nat.mod_eq_of_lt hn1]
    exact mul_inverse_mod_value (n - s) n hn1
      (Nat.coprime_of_lt_prime (by omega) hs2n hp).symm
  -- each scalar of the second run is the negative of the one of the first run
  have hnegsmul : ∀ (X : P) (a : Nat), n • X = 0 →
      ((a * inverse_mod_value (n - s) n) % n) • X = -(((a * inverse_mod_value s n) % n) • X) := by
    intro X a hX
    have hsum := negated_scalar_cancels n s (inverse_mod_value s n)
      (inverse_mod_value (n - s) n) a (by omega) hw hw2
    have h0 := nsmul_congr_mod_order X n _ 0 hX hsum
    rw [add_nsmul, zero_nsmul] at h0
    exact eq_neg_of_add_eq_zero_left h0
  have hpoint : op.m_group.point_multiply
      (op.m_group.multiply_mod_order (BigInt.decode msg) (inverse_mod_value (n - s) n))
      op.m_public_point
      (op.m_group.multiply_mod_order r (inverse_mod_value (n - s) n)) =
      -(op.m_group.point_multiply
        (op.m_group.multiply_mod_order (BigInt.decode msg) (inverse_mod_value s n))
        op.m_public_point
        (op.m_group.multiply_mod_order r (inverse_mod_value s n))) := by
    unfold EC_Group.point_multiply EC_Group.multiply_mod_order
    rw [← hn, hnegsmul _ _ hG, hnegsmul _ _ hQ, neg_add]
  constructor
  · rw [op.verify_eq_true_iff, hdr2, hds2, hpoint, hneg]
    exact ⟨hlen2, hr0, hrn, by omega, hs2n, neg_ne_zero.mpr hR0, hx⟩
  · intro h2 heq
    have hd := congrArg (fun l => BigInt.decode (l.drop L)) heq
    simp only at hd
    rw [hds2] at hd
    have h2s : n = 2 * s := by omega
    have hdvd : 2 ∣ n := ⟨s, h2s⟩
    rcases (Nat.dvd_prime hp).mp hdvd with h | h
    · omega
    · exact h2 h.symm

end Malleability

/-- C17 (as amended) at a concrete input: the accepted signature `[7, 9]` of message `[3]`
and its twin `[7, 10]`. -/
theorem verify_accepts_negated_s_witness :
    (toy_verify_op 7).verify [3] [7, 9] = .ok true ∧
    (toy_verify_op 7).verify [3] [7, 10] = .ok true ∧
    ([7, 10] : List Byte) ≠ [7, 9] :=
  have h := verify_accepts_negated_s (toy_verify_op 7) [3] [7, 9]
    (by norm_num [toy_verify_op, toy_group]) (by decide) (by decide) (by decide) (by decide)
  ⟨by decide, h.1, h.2 (by decide)⟩

/-- C17 refuted at a concrete input: over the group of order 2 the signature `[1, 1]` of the
empty message is accepted, its twin `(r, n - s)` is the same byte string, and no other
byte string is accepted: the accepted signature is the unique one. -/
theorem accepted_signature_unique_for_order_two :
    tiny_group.order.Prime ∧
    tiny_group.order • tiny_group.base_point = 0 ∧
    tiny_group.order • tiny_verify_op.m_public_point = 0 ∧
    tiny_verify_op.verify [] [1, 1] = .ok true ∧
    BigInt.be_bytes tiny_group.get_order_bytes 1 ++
      BigInt.be_bytes tiny_group.get_order_bytes (tiny_group.order - 1) = [1, 1] ∧
    (∀ sig, tiny_verify_op.verify [] sig = .ok true → sig = [1, 1]) := by
  refine ⟨by norm_num [tiny_group], by decide, by decide, by decide, by decide, ?_⟩
  intro sig h
  obtain ⟨hlen, hr0, hrn, hs0, hsn, _, _⟩ := (tiny_verify_op.verify_eq_true_iff [] sig).mp h
  have hL : tiny_verify_op.m_group.get_order_bytes = 1 := by decide
  have hn : tiny_verify_op.m_group.order = 2 := rfl
  rw [hL] at hlen hr0 hrn hs0 hsn
  rw [hn] at hrn hsn
  obtain ⟨a, b, rfl⟩ := List.length_eq_two.mp hlen
  simp only [List.take, List.drop, BigInt.decode, List.foldl, Nat.zero_mul, Nat.zero_add]
    at hr0 hrn hs0 hsn
  have ha : a = 1 := Fin.ext (by simp; omega)
  have hb : b = 1 := Fin.ext (by simp; omega)
  rw [ha, hb]

end Botan
